import Mathlib

/-!
# Eir on the Raspberry Pi 4: mailbox transport, property protocol and boot-time reservations

A shallow embedding of `kernel/eir/arch/arm/raspi4/raspi4.cpp`.

* Machine integers are natural numbers reduced explicitly (`% 2 ^ 32`, `% 2 ^ 64`).
* Memory-mapped registers are driven by a recorded device trace: every volatile load of a
  register takes the next recorded value of that register, every store is appended to a log.
* `assert` failures, busy loops that never leave and reads that run off memory are explicit
  outcomes of a call.
-/

namespace eir

/-! ## Outcomes of a call -/

/-- The `assert` statements of the modelled code. -/
inductive Check where
  /-- The assertion `assert(!(val & ~(uint64_t(0xFFFFFFF0))))` -/
  | addressFits
  /-- The assertion `assert(val == ret)` -/
  | echo
  /-- The assertion `assert(totalLen <= MaxSize)` -/
  | cmdlineFits
  /-- The assertion `assert(!hasChosenNode)` -/
  | singleChosen
  /-- The assertion `assert(nMemoryNodes < 32)` -/
  | memoryNodesFit
  /-- The assertion `assert(nMemoryNodes && hasChosenNode)` -/
  | nodesPresent
  /-- The assertion `assert(!"Invalid linux,initrd-start size")` -/
  | initrdSize
  /-- The assertion `assert(reg)` -/
  | regPresent
  /-- The assertion `assert(kernel_image.data() && kernel_image.size())` -/
  | kernelImage
  deriving DecidableEq, Repr

/-- How a call ends: it returns a value, an assertion halts the loader, a busy loop never sees
its flag clear within the device trace, or a read runs off the end of readable memory. -/
inductive Outcome (α : Type) where
  | ok (a : α)
  | abort (failed : Check)
  | stall
  | fault
  deriving DecidableEq, Repr

/-! ## Register fields -/

/-- Modelled from the spec: `arch::field<uint32_t, T>{shift, bits}` of `arch/bit.hpp`, which is
not among the sources. A field is named by its bit offset and bit width inside a 32-bit
register word. -/
structure Field where
  shift : Nat
  bits : Nat
  deriving DecidableEq, Repr

/-- Modelled from the spec: `field(value)` of `arch/bit.hpp`, the register word holding `value`
in the field and zero elsewhere. -/
def Field.make (f : Field) (value : Nat) : Nat :=
  ((value &&& (2 ^ f.bits - 1)) <<< f.shift) % 2 ^ 32

/-- Modelled from the spec: `word & field` of `arch/bit.hpp`, the content of the field in a
register word. -/
def Field.get (f : Field) (word : Nat) : Nat :=
  (word >>> f.shift) &&& (2 ^ f.bits - 1)

/-! ## Mailbox transport -/

namespace Mbox

/-- The `enum class Channel`. -/
inductive Channel where
  | pmi
  | fb
  | vuart
  | vchiq
  | led
  | button
  | touch
  | property
  deriving DecidableEq, Repr

/-- The enumerator values: `pmi = 0`, counting up, and `property = 8`. -/
def Channel.toNat : Channel → Nat
  | .pmi => 0
  | .fb => 1
  | .vuart => 2
  | .vchiq => 3
  | .led => 4
  | .button => 5
  | .touch => 6
  | .property => 8

namespace io

/-- The field `io::channel{0, 4}`. -/
def channel : Field := ⟨0, 4⟩

/-- The field `io::value{4, 28}`. -/
def value : Field := ⟨4, 28⟩

end io

namespace status

/-- The field `status::empty{30, 1}`. -/
def empty : Field := ⟨30, 1⟩

/-- The field `status::full{31, 1}`. -/
def full : Field := ⟨31, 1⟩

end status

/-- The mailbox register block as the loader observes it. -/
structure Dev where
  /-- values returned by the successive loads of `reg::status` -/
  status : List Nat
  /-- words returned by the successive loads of `reg::read` -/
  rdFifo : List Nat
  /-- words stored to `reg::write`, oldest first -/
  written : List Nat
  deriving DecidableEq, Repr

/-- The loop `while (space.load(reg::status) & flag) ;` over the recorded status values: what is
left of the trace once a load shows the flag clear, or `none` when no recorded load does. -/
def poll (flag : Field) : List Nat → Option (List Nat)
  | [] => none
  | s :: rest => if flag.get s ≠ 0 then poll flag rest else some rest

/-- The register word `io::channel(channel) | io::value(value >> 4)` for a channel number and a
32-bit value. -/
def ioWord (channel value : Nat) : Nat :=
  io.channel.make channel ||| io.value.make ((value % 2 ^ 32) >>> 4)

/-- The expression `(f & io::value) << 4` in 32-bit arithmetic. -/
def payload (f : Nat) : Nat :=
  (io.value.get f <<< 4) % 2 ^ 32

/-- The function `Mbox::write` with the channel given by its number. -/
def writeRaw (channel value : Nat) (dev : Dev) : Outcome Dev :=
  match poll status.full dev.status with
  | none => .stall
  | some rest => .ok { dev with status := rest, written := dev.written ++ [ioWord channel value] }

/-- The function `Mbox::write(Channel channel, uint32_t value)`. -/
def write (channel : Channel) (value : Nat) (dev : Dev) : Outcome Dev :=
  writeRaw channel.toNat value dev

/-- The function `Mbox::read(Channel channel)`: the decoded word and the device afterwards. A
trace without a word left for the load of `reg::read` ends like a poll that never sees its
flag clear. -/
def read (_channel : Channel) (dev : Dev) : Outcome (Nat × Dev) :=
  match poll status.empty dev.status with
  | none => .stall
  | some rest =>
    match dev.rdFifo with
    | [] => .stall
    | f :: more => .ok (payload f, { dev with status := rest, rdFifo := more })

end Mbox

/-- Sequencing of calls: the next step runs only when the previous one returned. -/
def Outcome.bind {α β : Type} (x : Outcome α) (k : α → Outcome β) : Outcome β :=
  match x with
  | .ok a => k a
  | .abort c => .abort c
  | .stall => .stall
  | .fault => .fault

/-! ## Memory and conversions -/

/-- Memory as the loader reads it: the byte stored at each address. -/
abbrev Mem := Nat → Nat

/-- A little-endian `uint32_t` load. -/
def load32 (mem : Mem) (addr : Nat) : Nat :=
  mem addr % 256 + 256 * (mem (addr + 1) % 256) + 65536 * (mem (addr + 2) % 256)
    + 16777216 * (mem (addr + 3) % 256)

/-- The conversion `int` to `uint32_t`. -/
def toU32 (x : Int) : Nat := (x % 4294967296).toNat

/-- The conversion `uint32_t` to `int`. -/
def toInt32 (w : Nat) : Int :=
  if w % 4294967296 < 2147483648 then ((w % 4294967296 : Nat) : Int)
  else ((w % 4294967296 : Nat) : Int) - 4294967296

/-- The conversion `reinterpret_cast<void *>(int)`: sign extension to a 64-bit address. -/
def intToPtr (i : Int) : Nat := (i % 18446744073709551616).toNat

/-- The scan of `strlen` from `addr` over at most `room` readable bytes: the number of bytes
before the first NUL, or `none` when no NUL lies in that room. -/
def strlenFrom (mem : Mem) : Nat → Nat → Option Nat
  | _, 0 => none
  | addr, room + 1 =>
    if mem addr % 256 = 0 then some 0
    else (strlenFrom mem (addr + 1) room).map (· + 1)

/-- The other side of the property channel. -/
structure Firmware where
  /-- memory as the loader reads it once the response word has arrived, for the buffer address
  and the request words the loader sent -/
  answer : Nat → List Nat → Mem
  /-- the first address past readable memory -/
  memTop : Nat

/-- The call `strlen(data)` in memory that ends at `memTop`. -/
def strlen (mem : Mem) (memTop data : Nat) : Option Nat :=
  strlenFrom mem data (memTop - data)

/-- The call `memcpy(dest, data, n)` on the bytes of the destination object: the first `n` bytes
are taken from memory at `data`, the rest of the destination is kept. A result longer than the
destination means bytes were written past its end. -/
def memcpy (dest : List Nat) (mem : Mem) (data n : Nat) : List Nat :=
  (List.range n).map (fun i => mem (data + i) % 256) ++ dest.drop n

/-! ## Property mailbox -/

namespace PropertyMbox

/-- The `enum class Clock`. -/
inductive Clock where
  | uart
  deriving DecidableEq, Repr

/-- The enumerator value `uart = 2`. -/
def Clock.toNat : Clock → Nat
  | .uart => 2

/-- The condition of `assert(!(val & ~(uint64_t(0xFFFFFFF0))))`. -/
def addressFits (val : Nat) : Bool :=
  val &&& 0xFFFFFFFF0000000F == 0

/-- The round trip shared by the three operations: the address assertion, `Mbox::write` of the
address truncated to `uint32_t`, `Mbox::read`, and the assertion `val == ret`. Returns `ret`. -/
def exchange (val : Nat) (dev : Mbox.Dev) : Outcome (Nat × Mbox.Dev) :=
  if addressFits val then
    (Mbox.write .property (val % 2 ^ 32) dev).bind fun dev1 =>
      (Mbox.read .property dev1).bind fun r =>
        if val = r.1 then .ok r else .abort .echo
  else .abort .addressFits

/-- The nine words stored by `setClockFreq` before the round trip. -/
def setClockFreqRequest (clock : Clock) (freq : Nat) (turbo : Bool) : List Nat :=
  [9 * 4, 0x00000000, 0x00038002, 12, 8, clock.toNat, freq % 2 ^ 32,
    if turbo then 1 else 0, 0x00000000]

/-- The function `setClockFreq(Clock clock, uint32_t freq, bool turbo)` with its buffer at
address `val`. -/
def setClockFreq (val : Nat) (dev : Mbox.Dev) (_clock : Clock) (_freq : Nat) (_turbo : Bool) :
    Outcome (Unit × Mbox.Dev) :=
  (exchange val dev).bind fun r => .ok ((), r.2)

/-- The 36 words stored by `setupFb` before the round trip. -/
def setupFbRequest (width height bpp : Int) : List Nat :=
  [36 * 4, 0x00000000,
    0x00048003, 8, 0, toU32 width, toU32 height,
    0x00048004, 8, 0, toU32 width, toU32 height,
    0x00048009, 8, 0, 0, 0,
    0x00048005, 4, 0, toU32 bpp,
    0x00048006, 4, 0, 0,
    0x00040001, 8, 0, 0x1000, 0,
    0x00040008, 4, 0, 0,
    0,
    0x00000000]

/-- The `frg::tuple<int, int, void *, size_t>` returned by `setupFb`. -/
structure FbResult where
  width : Int
  height : Int
  ptr : Nat
  pitch : Nat
  deriving DecidableEq, Repr

/-- The `int fbPtr` of `setupFb`: zero unless response word 20 equals `bpp`, and then word 28
less `0xC0000000` in 32-bit arithmetic, converted to `int`. -/
def fbPtr (mem : Mem) (ret : Nat) (bpp : Int) : Int :=
  if load32 mem (ret + 4 * 20) = toU32 bpp then
    toInt32 ((load32 mem (ret + 4 * 28) + 4294967296 - 0xC0000000) % 4294967296)
  else 0

/-- The part of `setupFb` after the round trip: the tuple read back through `ptr = ret`. -/
def readFb (mem : Mem) (ret : Nat) (bpp : Int) : FbResult :=
  { width := toInt32 (load32 mem (ret + 4 * 5))
    height := toInt32 (load32 mem (ret + 4 * 6))
    ptr := intToPtr (fbPtr mem ret bpp)
    pitch := load32 mem (ret + 4 * 33) }

/-- The function `setupFb(int width, int height, int bpp)` with its buffer at address `val`. -/
def setupFb (val : Nat) (dev : Mbox.Dev) (fw : Firmware) (width height bpp : Int) :
    Outcome (FbResult × Mbox.Dev) :=
  (exchange val dev).bind fun r =>
    .ok (readFb (fw.answer val (setupFbRequest width height bpp)) r.1 bpp, r.2)

/-- The constant `req_size = 5 * 4 + MaxSize` of `getCmdline`, a `uint32_t`. -/
def cmdlineReqSize (MaxSize : Nat) : Nat := (5 * 4 + MaxSize) % 2 ^ 32

/-- The words of the `req_size`-byte buffer of `getCmdline<MaxSize>` when it is sent: zeroed by
`memset`, then the four stores through `ptr`. -/
def getCmdlineRequest (MaxSize : Nat) : List Nat :=
  ((((List.replicate (cmdlineReqSize MaxSize / 4) 0).set 0 (cmdlineReqSize MaxSize)).set 1
    0x00000000).set 2 0x00050001).set 3 (MaxSize % 2 ^ 32)

/-- The part of `getCmdline<MaxSize>` after the round trip: `totalLen`, `strlen`, the assertion
and the copy; `ret + 20` is computed in `uint32_t`. Returns the outcome and the bytes of the destination afterwards. -/
def finishCmdline (MaxSize : Nat) (mem : Mem) (memTop ret : Nat) (dev : Mbox.Dev)
    (dest : List Nat) : Outcome (Nat × Mbox.Dev) × List Nat :=
  let data := (ret + 20) % 2 ^ 32
  let totalLen := load32 mem (ret + 4 * 3)
  match strlen mem memTop data with
  | none => (.fault, dest)
  | some cmdlineLen =>
    if totalLen ≤ MaxSize then (.ok (cmdlineLen, dev), memcpy dest mem data (cmdlineLen + 1))
    else (.abort .cmdlineFits, dest)

/-- The function `getCmdline<MaxSize>(void *dest)` with its buffer at address `val`: the outcome
(the returned length on success) and the bytes of the destination afterwards. -/
def getCmdline (MaxSize : Nat) (val : Nat) (dev : Mbox.Dev) (fw : Firmware) (dest : List Nat) :
    Outcome (Nat × Mbox.Dev) × List Nat :=
  match exchange val dev with
  | .ok r => finishCmdline MaxSize (fw.answer val (getCmdlineRequest MaxSize)) fw.memTop r.1 r.2 dest
  | .abort c => (.abort c, dest)
  | .stall => (.stall, dest)
  | .fault => (.fault, dest)

end PropertyMbox

/-- The test `if (!ptr || !pitch)` of `eirRaspi4Main` on the tuple of `setupFb`: `true` when the
framebuffer is taken into use (`have_fb`). -/
def haveFb (r : PropertyMbox.FbResult) : Bool :=
  !(r.ptr == 0 || r.pitch == 0)

/-! ## Property messages as the protocol describes them -/

/-- One tag record of a property message. -/
structure TagRecord where
  /-- tag id -/
  tag : Nat
  /-- size of the value buffer in bytes -/
  bufSize : Nat
  /-- the request/response size word -/
  code : Nat
  /-- the words of the value buffer -/
  payload : List Nat
  /-- index of the first payload word in the message -/
  payloadAt : Nat
  deriving DecidableEq, Repr

/-- A property message split into its parts. -/
structure PropertyMessage where
  /-- word 0, the total size in bytes -/
  size : Nat
  /-- word 1, the request code -/
  code : Nat
  /-- the tag records in order -/
  records : List TagRecord
  /-- index of the zero end tag -/
  endTagAt : Nat
  deriving DecidableEq, Repr

/-- The tag records from word `i` on, following the property protocol of the specification:
records `{tag id, value-buffer size, request/response size, value buffer}` up to a zero end
tag, all inside `words`. Gives the records and the index of the end tag, or `none` when the
words run out first. -/
def parseTags (words : List Nat) : Nat → Nat → Option (List TagRecord × Nat)
  | 0, _ => none
  | fuel + 1, i =>
    match words[i]? with
    | none => none
    | some tag =>
      if tag = 0 then some ([], i)
      else
        match words[i + 1]?, words[i + 2]? with
        | some bufSize, some code =>
          if i + 3 + (bufSize + 3) / 4 ≤ words.length then
            (parseTags words fuel (i + 3 + (bufSize + 3) / 4)).map fun r =>
              (⟨tag, bufSize, code, (words.drop (i + 3)).take ((bufSize + 3) / 4), i + 3⟩ :: r.1,
                r.2)
          else none
        | _, _ => none

/-- A buffer of 32-bit words read as a property message following the specification: the header
`{total size, code}`, then tag records and the zero end tag, all within the first `total size`
bytes of the buffer. -/
def parseMessage (buf : List Nat) : Option PropertyMessage :=
  match buf with
  | size :: code :: _ =>
    if size % 4 = 0 ∧ size / 4 ≤ buf.length then
      (parseTags (buf.take (size / 4)) (size / 4) 2).map fun r => ⟨size, code, r.1, r.2⟩
    else none
  | _ => none

/-! ## Device tree, archive and the inputs of the entry point -/

/-- The bytes of a string literal, without a terminator. -/
def bytes (s : String) : List Nat := s.toList.map Char.toNat

/-- The bytes of a C string literal: the characters and the terminating NUL. -/
def cstr (s : String) : List Nat := bytes s ++ [0]

/-- The test `!memcmp(a, b, n)` on the bytes found at the two pointers. -/
def memcmpEq (a b : List Nat) (n : Nat) : Bool := decide (a.take n = b.take n)

/-- The C string found at a pointer whose memory holds the given bytes: the bytes before the
first NUL, when there is a NUL. -/
def cString (mem : List Nat) : Option (List Nat) :=
  if 0 ∈ mem then some (mem.takeWhile (· ≠ 0)) else none

/-- A property as `dtb.hpp`, which is not among the sources, presents it to the loader: the
bytes at `name()` and the results of the accessors the loader calls. -/
structure DeviceTreeProperty where
  /-- bytes at the pointer `name()`: the name, its NUL and what follows in the blob -/
  name : List Nat
  /-- result of `size()` -/
  size : Nat
  /-- result of `asU32()` -/
  asU32 : Nat
  /-- result of `asU64()` -/
  asU64 : Nat
  /-- result of `asPropArrayEntry(nCells, offset)` -/
  asPropArrayEntry : Nat → Nat → Nat

/-- A node as `dtb.hpp`, which is not among the sources, presents it to the loader. -/
structure DeviceTreeNode where
  /-- bytes at the pointer `name()`: the name, its NUL and what follows in the blob -/
  name : List Nat
  /-- result of `findProperty(name)` -/
  findProperty : String → Option DeviceTreeProperty

/-- The `InitialRegion` pairs handed to `createInitialRegions`. -/
structure InitialRegion where
  base : Nat
  size : Nat
  deriving DecidableEq, Repr

/-- The blob as `dtb.hpp`, which is not among the sources, presents it to the loader. -/
structure DeviceTree where
  /-- result of `size()` -/
  size : Nat
  /-- the properties of the root node in the order `properties()` yields them -/
  rootProperties : List DeviceTreeProperty
  /-- the direct children of the root node in blob order -/
  rootSubnodes : List DeviceTreeNode
  /-- the entries `{address, size}` of `memoryReservations()` in blob order -/
  memoryReservations : List InitialRegion

/-- An entry of the archive: its name and the address and size of its data. -/
structure CpioEntry where
  name : List Nat
  data : Nat
  size : Nat
  deriving DecidableEq, Repr

/-- The archive as `cpio.hpp`, which is not among the sources, presents it to the loader. -/
structure CpioRange where
  /-- the entries in the order iteration yields them -/
  entries : List CpioEntry
  /-- result of `eof()` -/
  eof : Nat
  deriving DecidableEq, Repr

/-- What the entry point is given and finds in memory. -/
structure Boot where
  /-- the argument `deviceTreePtr` -/
  deviceTreePtr : Nat
  /-- the blob found at the masked pointer -/
  dt : DeviceTree
  /-- address of `eirImageFloor` -/
  eirStart : Nat
  /-- address of `eirImageCeiling` -/
  eirEnd : Nat
  /-- the archive found at an address -/
  cpioAt : Nat → CpioRange

/-- Subtraction of `uintptr_t` values. -/
def sub64 (a b : Nat) : Nat := (a % 2 ^ 64 + 2 ^ 64 - b % 2 ^ 64) % 2 ^ 64

/-- The locals `chosenNode`, `hasChosenNode`, `memoryNodes` and `nMemoryNodes`; the number of
memory nodes is the length of the list. -/
structure Discovery where
  chosenNode : Option DeviceTreeNode
  memoryNodes : List DeviceTreeNode

/-- The first lambda given to `discoverSubnodes`: the node name begins with `memory@` or is
`chosen`. -/
def wanted (node : DeviceTreeNode) : Bool :=
  memcmpEq (cstr "memory@") node.name 7 || memcmpEq (cstr "chosen") node.name 7

/-- The second lambda given to `discoverSubnodes`. -/
def visit (st : Discovery) (node : DeviceTreeNode) : Outcome Discovery :=
  if memcmpEq (cstr "chosen") node.name 7 then
    if st.chosenNode.isSome then .abort .singleChosen
    else .ok { st with chosenNode := some node }
  else
    if st.memoryNodes.length < 32 then .ok { st with memoryNodes := st.memoryNodes ++ [node] }
    else .abort .memoryNodesFit

/-- Modelled from the spec: `discoverSubnodes` of `dtb.hpp`, which is not among the sources. It
enumerates the direct children of a node in order and hands those matching the predicate to the
visitor. -/
def discoverSubnodes (st : Discovery) : List DeviceTreeNode → Outcome Discovery
  | [] => .ok st
  | node :: rest =>
    if wanted node then (visit st node).bind fun st1 => discoverSubnodes st1 rest
    else discoverSubnodes st rest

/-- The loop over the root properties that sets `addressCells` and `sizeCells`, started from
the given values. -/
def rootCellsFrom : Nat × Nat → List DeviceTreeProperty → Nat × Nat
  | cells, [] => cells
  | cells, prop :: rest =>
    if memcmpEq (cstr "#address-cells") prop.name 15 then
      rootCellsFrom (prop.asU32 % 2 ^ 32, cells.2) rest
    else if memcmpEq (cstr "#size-cells") prop.name 12 then
      rootCellsFrom (cells.1, prop.asU32 % 2 ^ 32) rest
    else rootCellsFrom cells rest

/-- The values of `addressCells` and `sizeCells` after the loop, from the initial 2 and 1. -/
def rootCells (props : List DeviceTreeProperty) : Nat × Nat :=
  rootCellsFrom (2, 1) props

/-- The array `reservedRegions[32]` with its counter `nReservedRegions`. -/
structure ReservedTable where
  /-- the entries stored inside the array, in index order -/
  entries : List InitialRegion
  /-- the counter `nReservedRegions` -/
  count : Nat
  /-- stores made at an index of 32 or more, with that index -/
  pastEnd : List (Nat × InitialRegion)
  deriving DecidableEq, Repr

/-- The statement `reservedRegions[nReservedRegions++] = region`. -/
def ReservedTable.push (t : ReservedTable) (region : InitialRegion) : ReservedTable :=
  if t.count < 32 then { t with entries := t.entries ++ [region], count := t.count + 1 }
  else { t with count := t.count + 1, pastEnd := t.pastEnd ++ [(t.count, region)] }

/-- The choice of `initrd` from the property `linux,initrd-start` of the chosen node. -/
def initrdStart (chosenNode : DeviceTreeNode) : Outcome Nat :=
  match chosenNode.findProperty "linux,initrd-start" with
  | some p =>
    if p.size = 4 then .ok (p.asU32 % 2 ^ 32)
    else if p.size = 8 then .ok (p.asU64 % 2 ^ 64)
    else .abort .initrdSize
  | none => .ok 0x8000000

/-- The table after the loop over `dt.memoryReservations()` and the store of the loader image. -/
def reserveImage (b : Boot) : ReservedTable :=
  (b.dt.memoryReservations.foldl ReservedTable.push ⟨[], 0, []⟩).push
    ⟨b.eirStart, sub64 b.eirEnd b.eirStart⟩

/-- The table after the stores of the ramdisk and of the blob. -/
def reserveRest (b : Boot) (initrd : Nat) : ReservedTable :=
  ((reserveImage b).push ⟨initrd, sub64 (b.cpioAt initrd).eof initrd⟩).push
    ⟨b.deviceTreePtr % 2 ^ 32, b.dt.size⟩

/-- One call `createInitialRegions({base, size}, {reservedRegions, nReservedRegions})` with the
decoding that produced its first argument. -/
structure RegionCall where
  /-- the cell count given to the first `asPropArrayEntry` -/
  addressCells : Nat
  /-- the cell count given to the second `asPropArrayEntry` -/
  sizeCells : Nat
  /-- the first argument -/
  region : InitialRegion
  /-- the entries of `reservedRegions` that lie inside the array -/
  reserved : List InitialRegion
  /-- the length of the span, `nReservedRegions` -/
  count : Nat
  /-- the slots of the span that lie behind the array: the stores made at an index of 32 or
  more, with that index -/
  pastEnd : List (Nat × InitialRegion)
  deriving DecidableEq, Repr

/-- The elements of the span `{reservedRegions, nReservedRegions}` of a table in slot order:
the slots inside the array, then the slots behind it. -/
def ReservedTable.span (t : ReservedTable) : List InitialRegion :=
  t.entries ++ t.pastEnd.map (·.2)

/-- The elements of the span `{reservedRegions, nReservedRegions}` given to a call, in slot
order: the slots inside the array, then the slots behind it. -/
def RegionCall.span (c : RegionCall) : List InitialRegion :=
  c.reserved ++ c.pastEnd.map (·.2)

/-- The loop `while (j < reg->size())` for one memory node, run for at most `fuel` rounds: the
calls made and whether the loop was left. -/
def regLoop (reg : DeviceTreeProperty) (cells : Nat × Nat) (t : ReservedTable) :
    Nat → Nat → List RegionCall × Bool
  | 0, j => ([], decide (¬ j < reg.size))
  | fuel + 1, j =>
    if j < reg.size then
      let base := reg.asPropArrayEntry cells.1 j
      let j1 := (j + cells.1 * 4 % 2 ^ 32) % 2 ^ 64
      let size := reg.asPropArrayEntry cells.2 j1
      let j2 := (j1 + cells.2 * 4 % 2 ^ 32) % 2 ^ 64
      let r := regLoop reg cells t fuel j2
      (⟨cells.1, cells.2, ⟨base, size⟩, t.entries, t.count, t.pastEnd⟩ :: r.1, r.2)
    else ([], true)

/-- The loop over `memoryNodes`: the calls made and how the loop ended. -/
def scanMemory (cells : Nat × Nat) (t : ReservedTable) (fuel : Nat) :
    List DeviceTreeNode → List RegionCall × Outcome Unit
  | [] => ([], .ok ())
  | node :: rest =>
    match node.findProperty "reg" with
    | none => ([], .abort .regPresent)
    | some reg =>
      let r := regLoop reg cells t fuel 0
      if r.2 then
        let s := scanMemory cells t fuel rest
        (r.1 ++ s.1, s.2)
      else (r.1, .stall)

/-- The fields `physicalBase` and `length` of the `EirModule` for the ramdisk. -/
structure EirModule where
  physicalBase : Nat
  length : Nat
  deriving DecidableEq, Repr

/-- The loop over the archive that picks `kernel_image`: the data of the last entry named
`thor`, from the initial `{nullptr, 0}`. -/
def kernelImage (entries : List CpioEntry) : Nat × Nat :=
  entries.foldl (fun img entry => if entry.name = bytes "thor" then (entry.data, entry.size)
    else img) (0, 0)

/-- What `eirRaspi4Main` has done: the calls of `createInitialRegions` in order, the table of
reservations, and how the part up to the boot module ended. -/
structure MainRun where
  calls : List RegionCall
  table : ReservedTable
  result : Outcome EirModule

/-- The function `eirRaspi4Main` from the discovery of the nodes to the boot module of the
ramdisk: node discovery, cell widths, reservations, the loop over the memory nodes, the lookup
of the kernel image and the module. Each loop over a `reg` property runs for at most `fuel`
rounds. -/
def eirRaspi4Main (fuel : Nat) (b : Boot) : MainRun :=
  match discoverSubnodes ⟨none, []⟩ b.dt.rootSubnodes with
  | .ok found =>
    let cells := rootCells b.dt.rootProperties
    match found.chosenNode, found.memoryNodes with
    | some chosenNode, _ :: _ =>
      match initrdStart chosenNode with
      | .ok initrd =>
        let t := reserveRest b initrd
        let scan := scanMemory cells t fuel found.memoryNodes
        match scan.2 with
        | .ok _ =>
          let img := kernelImage (b.cpioAt initrd).entries
          if img.1 ≠ 0 ∧ img.2 ≠ 0 then
            ⟨scan.1, t, .ok ⟨initrd, sub64 (b.cpioAt initrd).eof initrd⟩⟩
          else ⟨scan.1, t, .abort .kernelImage⟩
        | .abort c => ⟨scan.1, t, .abort c⟩
        | .stall => ⟨scan.1, t, .stall⟩
        | .fault => ⟨scan.1, t, .fault⟩
      | .abort c => ⟨[], reserveImage b, .abort c⟩
      | .stall => ⟨[], reserveImage b, .stall⟩
      | .fault => ⟨[], reserveImage b, .fault⟩
    | _, _ => ⟨[], ⟨[], 0, []⟩, .abort .nodesPresent⟩
  | .abort c => ⟨[], ⟨[], 0, []⟩, .abort c⟩
  | .stall => ⟨[], ⟨[], 0, []⟩, .stall⟩
  | .fault => ⟨[], ⟨[], 0, []⟩, .fault⟩

/-- The last of the properties whose name, as a C string, is exactly `s`. -/
def lastNamed (s : String) (props : List DeviceTreeProperty) : Option DeviceTreeProperty :=
  (props.filter fun p => decide (cString p.name = some (bytes s))).getLast?

/-- The width taken from a found property, or the default `d` when there is none. -/
def widthOr (d : Nat) : Option DeviceTreeProperty → Nat
  | none => d
  | some p => p.asU32 % 2 ^ 32

/-! ## Fault handler -/

/-- One item streamed into the logger. -/
inductive LogItem where
  /-- a string -/
  | text (s : String)
  /-- an integer -/
  | num (n : Nat)
  /-- a value printed as `void *` -/
  | ptr (n : Nat)
  /-- an element read at `index`, past the end of a table of strings -/
  | pastTable (index : Nat)
  deriving DecidableEq, Repr

/-- The expression `table[index]` for a table of strings, as a logged item. -/
def tableItem (table : List String) (index : Nat) : LogItem :=
  match table[index]? with
  | some s => .text s
  | none => .pastTable index

/-- The ternaries `flag ? "Yes" : "No"` and the like. -/
def choose (flag : Nat) (yes no : String) : LogItem :=
  if flag ≠ 0 then .text yes else .text no

/-- The string chosen by `switch (i_type)`, the enumerators of `IntrType` counting from 0. -/
def i_type_str (i_type : Nat) : String :=
  if i_type = 0 then "synchronous"
  else if i_type = 1 then "irq"
  else if i_type = 2 then "fiq"
  else if i_type = 3 then "SError"
  else "Unknown"

/-- The string chosen by `switch (exc_type)`. -/
def exc_type_str (exc_type : Nat) : String :=
  if exc_type = 0x01 then "Trapped WFI/WFE"
  else if exc_type = 0x0e then "Illegal execution"
  else if exc_type = 0x15 then "System call"
  else if exc_type = 0x20 then "Instruction abort, lower EL"
  else if exc_type = 0x21 then "Instruction abort, same EL"
  else if exc_type = 0x22 then "Instruction alignment fault"
  else if exc_type = 0x24 then "Data abort, lower EL"
  else if exc_type = 0x25 then "Data abort, same EL"
  else if exc_type = 0x26 then "Stack alignment fault"
  else if exc_type = 0x2c then "Floating point"
  else "Unknown"

/-- The table `sas_values`. -/
def sas_values : List String := ["Byte", "Halfword", "Word", "Doubleword"]

/-- The table `set_values`. -/
def set_values : List String :=
  ["Recoverable", "Uncontainable", "Reserved", "Restartable/Corrected"]

/-- The table `dfsc_values`. -/
def dfsc_values : List String := ["Address size", "Translation", "Access flag", "Permission"]

/-- The value `iss = syndrome & ((1 << 25) - 1)`. -/
def issOf (syndrome : Nat) : Nat := syndrome &&& ((1 <<< 25) - 1)

/-- The line logged by the chain of tests on `iss & 0b111111`. -/
def dfscLine (iss : Nat) : List LogItem :=
  if iss &&& 0b111111 ≤ 0b001111 then
    [.text "Data fault status code: ", tableItem dfsc_values ((iss >>> 2) &&& 4),
      .text " fault level ", .num (iss &&& 3)]
  else if iss &&& 0b111111 = 0b10000 then
    [.text "Data fault status code: Synchronous external fault"]
  else if iss &&& 0b111111 = 0b100001 then
    [.text "Data fault status code: Alignment fault"]
  else if iss &&& 0b111111 = 0b110000 then
    [.text "Data fault status code: TLB conflict abort"]
  else
    [.text "Data fault status code: unknown"]

/-- The lines logged inside `if (exc_type == 0x25 || exc_type == 0x24)`. -/
def dataAbortLines (iss : Nat) : List (List LogItem) :=
  [ [.text "Access size: ", tableItem sas_values ((iss >>> 22) &&& 3)],
    [.text "Sign extended? ", choose (iss &&& (1 <<< 21)) "Yes" "No"],
    [.text "Sixty-Four? ", choose (iss &&& (1 <<< 15)) "Yes" "No"],
    [.text "Acquire/Release? ", choose (iss &&& (1 <<< 14)) "Yes" "No"],
    [.text "Synch error type: ", tableItem set_values ((iss >>> 11) &&& 3)],
    [.text "Fault address valid? ", choose (iss &&& (1 <<< 10)) "No" "Yes"],
    [.text "Cache maintenance? ", choose (iss &&& (1 <<< 8)) "Yes" "No"],
    [.text "S1PTW? ", choose (iss &&& (1 <<< 7)) "Yes" "No"],
    [.text "Access type: ", choose (iss &&& (1 <<< 6)) "Write" "Read"],
    dfscLine iss ]

/-- The function `eirExceptionHandler`: the lines it logs, in order, before it halts in its
final loop. The accesses to `sctlr_el1` are not part of the model. -/
def eirExceptionHandler (i_type syndrome link state fault_addr : Nat) : List (List LogItem) :=
  [ [.text "An unexpected fault has occured:"],
    [.text "Interruption type: ", .text (i_type_str i_type)],
    [.text "Exception type: ", .text (exc_type_str (syndrome >>> 26)), .text " (",
      .ptr (syndrome >>> 26), .text ")"] ]
  ++ (if syndrome >>> 26 = 0x25 ∨ syndrome >>> 26 = 0x24 then dataAbortLines (issOf syndrome)
      else [])
  ++ [ [.text "IP: ", .ptr link, .text ", State: ", .ptr state],
       [.text "Syndrome: ", .ptr syndrome, .text ", Fault address: ", .ptr fault_addr],
       [.text "Halting..."] ]

/-! ## Concrete machines used in the examples -/

/-- Memory holding the given little-endian 32-bit words from address `base` on, zero elsewhere. -/
def memOfWords (base : Nat) (words : List Nat) : Mem := fun addr =>
  if base ≤ addr then (words.getD ((addr - base) / 4) 0 / 256 ^ ((addr - base) % 4)) % 256 else 0

/-- A device that is ready at both polls and answers with the single word `f`. -/
def readyDev (f : Nat) : Mbox.Dev := ⟨[0, 0], [f], []⟩

/-- A firmware that leaves the given words in memory at the buffer address, whatever it was
asked; readable memory ends at `0x40000000`. -/
def wordsFirmware (words : List Nat) : Firmware :=
  { answer := fun val _ => memOfWords val words, memTop := 0x40000000 }

/-- A response to the framebuffer request of `1920 x 1080` at depth 32 in which the firmware
reports depth 16 (word 20), a buffer at `0xC4000000` (word 28) and a pitch of 3840 (word 33). -/
def depth16Response : List Nat :=
  [144, 0x80000000,
    0x00048003, 8, 0x80000008, 1920, 1080,
    0x00048004, 8, 0x80000008, 1920, 1080,
    0x00048009, 8, 0x80000008, 0, 0,
    0x00048005, 4, 0x80000004, 16,
    0x00048006, 4, 0x80000004, 0,
    0x00040001, 8, 0x80000008, 0xC4000000, 0x7E9000,
    0x00040008, 4, 0x80000004, 3840,
    0, 0]

/-- A property with the given name and 32-bit value. -/
def cellProp (name : String) (v : Nat) : DeviceTreeProperty :=
  ⟨cstr name, 4, v, v, fun _ _ => v⟩

/-- A memory node `memory@0` whose `reg` holds one entry of two address cells and one size
cell: base 0, size `0x40000000`. -/
def memoryNode : DeviceTreeNode :=
  { name := cstr "memory@0"
    findProperty := fun s =>
      if s = "reg" then
        some ⟨cstr "reg", 12, 0, 0, fun _ off => if off = 0 then 0 else 0x40000000⟩
      else none }

/-- A node `chosen` without `linux,initrd-start`. -/
def chosenNode : DeviceTreeNode :=
  { name := cstr "chosen", findProperty := fun _ => none }

/-- A boot with `n` memory reservations of one page each in the blob, one memory node, the
blob of `0x8000` bytes at `0x2000000`, the loader image at `0x80000..0x100000` and an archive at
the default address holding `thor`. -/
def bootWith (n : Nat) : Boot :=
  { deviceTreePtr := 0x2000000
    dt :=
      { size := 0x8000
        rootProperties := [cellProp "#address-cells" 2, cellProp "#size-cells" 1]
        rootSubnodes := [chosenNode, memoryNode]
        memoryReservations := (List.range n).map fun i => ⟨0x10000000 + 0x1000 * i, 0x1000⟩ }
    eirStart := 0x80000
    eirEnd := 0x100000
    cpioAt := fun a => ⟨[⟨bytes "thor", a + 0x100, 0x4000⟩], a + 0x5000⟩ }

/-- A firmware that answers the command-line request with a reported length of `MaxSize` and
a command line of `MaxSize` letters `a` filling the whole value buffer; the memory behind the
buffer is zero. -/
def fullPayloadFirmware (MaxSize : Nat) : Firmware :=
  { answer := fun val _ addr =>
      if addr < val + 20 then
        memOfWords val [20 + MaxSize, 0x80000000, 0x00050001, MaxSize, 0x80000000 + MaxSize] addr
      else if addr < val + 20 + MaxSize then 0x61
      else 0
    memTop := 0x40000000 }

/-! # Properties -/

/-! ## Arithmetic form of the field operations -/

theorem Field.get_eq (f : Field) (w : Nat) : f.get w = w / 2 ^ f.shift % 2 ^ f.bits := by
  unfold Field.get
  rw [Nat.and_pow_two_sub_one_eq_mod, Nat.shiftRight_eq_div_pow]

theorem Field.make_eq (f : Field) (v : Nat) :
    f.make v = (v % 2 ^ f.bits * 2 ^ f.shift) % 2 ^ 32 := by
  unfold Field.make
  rw [Nat.and_pow_two_sub_one_eq_mod, Nat.shiftLeft_eq]

theorem Mbox.ioWord_eq (c v : Nat) (hc : c < 16) (hv : v < 2 ^ 32) :
    Mbox.ioWord c v = 16 * (v / 16) + c := by
  unfold Mbox.ioWord
  rw [Field.make_eq, Field.make_eq, Nat.shiftRight_eq_div_pow]
  simp only [Mbox.io.channel, Mbox.io.value]
  have h1 : (c % 2 ^ 4 * 2 ^ 0) % 2 ^ 32 = c := by omega
  have h2 : (v % 2 ^ 32 / 2 ^ 4 % 2 ^ 28 * 2 ^ 4) % 2 ^ 32 = 2 ^ 4 * (v / 16) := by omega
  rw [h1, h2, Nat.lor_comm]
  exact (Nat.mul_add_lt_is_or (by omega) (v / 16)).symm

theorem Mbox.payload_eq (f : Nat) (hf : f < 2 ^ 32) : Mbox.payload f = f - f % 16 := by
  unfold Mbox.payload
  rw [Field.get_eq, Nat.shiftLeft_eq]
  simp only [Mbox.io.value]
  omega


/-! ## The round trip -/

section roundTrip
open Mbox PropertyMbox

theorem Outcome.bind_ok {α β : Type} (a : α) (k : α → Outcome β) :
    (Outcome.ok a).bind k = k a := rfl

theorem PropertyMbox.exchange_of_read (val ret : Nat) (dev dev1 dev2 : Mbox.Dev)
    (hfit : addressFits val = true)
    (hw : Mbox.write .property (val % 2 ^ 32) dev = .ok dev1)
    (hr : Mbox.read .property dev1 = .ok (ret, dev2)) :
    exchange val dev = if val = ret then .ok (ret, dev2) else .abort .echo := by
  unfold exchange
  rw [if_pos hfit, hw, Outcome.bind_ok, hr, Outcome.bind_ok]

theorem PropertyMbox.exchange_returns_address (val ret : Nat) (dev dev2 : Mbox.Dev)
    (h : exchange val dev = .ok (ret, dev2)) : ret = val := by
  unfold exchange at h
  split at h
  · cases hw : Mbox.write .property (val % 2 ^ 32) dev with
    | ok dev1 =>
      rw [hw, Outcome.bind_ok] at h
      cases hr : Mbox.read .property dev1 with
      | ok r =>
        rw [hr, Outcome.bind_ok] at h
        split at h
        · next hv =>
          injection h with h
          rw [hv, h]
        · cases h
      | abort c => rw [hr] at h; cases h
      | stall => rw [hr] at h; cases h
      | fault => rw [hr] at h; cases h
    | abort c => rw [hw] at h; cases h
    | stall => rw [hw] at h; cases h
    | fault => rw [hw] at h; cases h
  · cases h

theorem PropertyMbox.finishCmdline_too_long (MaxSize : Nat) (mem : Mem) (memTop ret : Nat)
    (d : Mbox.Dev) (dest : List Nat) (h : MaxSize < load32 mem (ret + 4 * 3)) :
    finishCmdline MaxSize mem memTop ret d dest =
      ((match strlen mem memTop ((ret + 20) % 2 ^ 32) with
        | none => Outcome.fault
        | some _ => Outcome.abort Check.cmdlineFits), dest) := by
  have hnot : ¬ load32 mem (ret + 4 * 3) ≤ MaxSize := Nat.not_le.mpr h
  unfold finishCmdline
  dsimp only
  generalize strlen mem memTop ((ret + 20) % 2 ^ 32) = s
  cases s with
  | none => rfl
  | some n => exact if_neg hnot

end roundTrip

/-! ## Names, cell widths and the reservation table -/

section deviceTree

theorem memcmpEq_cstr (s : List Nat) (hs : ∀ x ∈ s, x ≠ 0) (name : List Nat) :
    memcmpEq (s ++ [0]) name (s.length + 1) = true ↔ cString name = some s := by
  unfold memcmpEq
  rw [decide_eq_true_iff]
  induction s generalizing name with
  | nil =>
    cases name with
    | nil => simp [cString]
    | cons b t =>
      by_cases hb : b = 0
      · subst hb; simp [cString]
      · have hb2 : ¬ (0 = b) := fun h => hb h.symm
        simp [cString, hb, hb2, List.takeWhile_cons]
  | cons a s ih =>
    have ha : a ≠ 0 := hs a (List.mem_cons_self a s)
    have hs2 : ∀ x ∈ s, x ≠ 0 := fun x hx => hs x (List.mem_cons_of_mem a hx)
    cases name with
    | nil => simp [cString]
    | cons b t =>
      have iht := ih hs2 t
      simp only [List.cons_append, List.length_cons, List.take_succ_cons, List.cons.injEq]
      rw [iht]
      by_cases hb : b = 0
      · subst hb
        simp [cString, ha]
      · have hb2 : ¬ (0 = b) := fun h => hb h.symm
        by_cases h0 : 0 ∈ t
        · simp only [cString, h0, List.mem_cons, hb2, false_or, if_true, List.takeWhile_cons,
            ne_eq, hb, not_false_eq_true, decide_True, Option.some.injEq, List.cons.injEq]
          constructor
          · rintro ⟨h1, h2⟩
            exact ⟨h1.symm, h2⟩
          · rintro ⟨h1, h2⟩
            exact ⟨h1.symm, h2⟩
        · simp [cString, hb, hb2, h0, List.takeWhile_cons]

theorem lastNamed_cons (s : String) (p : DeviceTreeProperty) (rest : List DeviceTreeProperty)
    (d : Nat) :
    widthOr d (lastNamed s (p :: rest)) =
      widthOr (if cString p.name = some (bytes s) then p.asU32 % 2 ^ 32 else d)
        (lastNamed s rest) := by
  unfold lastNamed
  by_cases h : cString p.name = some (bytes s)
  · rw [List.filter_cons_of_pos (by simpa using h), List.getLast?_cons, if_pos h]
    cases (List.filter (fun p => decide (cString p.name = some (bytes s))) rest).getLast? with
    | none => rfl
    | some q => rfl
  · rw [List.filter_cons_of_neg (by simpa using h), if_neg h]

theorem rootCellsFrom_eq (props : List DeviceTreeProperty) (cells : Nat × Nat) :
    rootCellsFrom cells props =
      (widthOr cells.1 (lastNamed "#address-cells" props),
        widthOr cells.2 (lastNamed "#size-cells" props)) := by
  have hA : ∀ name, memcmpEq (cstr "#address-cells") name 15 = true ↔
      cString name = some (bytes "#address-cells") :=
    fun name => memcmpEq_cstr (bytes "#address-cells") (by decide) name
  have hS : ∀ name, memcmpEq (cstr "#size-cells") name 12 = true ↔
      cString name = some (bytes "#size-cells") :=
    fun name => memcmpEq_cstr (bytes "#size-cells") (by decide) name
  have hne : some (bytes "#address-cells") ≠ some (bytes "#size-cells") := by decide
  induction props generalizing cells with
  | nil => rfl
  | cons p rest ih =>
    rw [lastNamed_cons, lastNamed_cons]
    unfold rootCellsFrom
    by_cases h1 : memcmpEq (cstr "#address-cells") p.name 15 = true
    · have h1c := (hA p.name).mp h1
      have h2c : cString p.name ≠ some (bytes "#size-cells") := by
        rw [h1c]; exact hne
      rw [if_pos h1, ih, if_pos h1c, if_neg h2c]
    · have h1c : ¬ cString p.name = some (bytes "#address-cells") :=
        fun h => h1 ((hA p.name).mpr h)
      rw [if_neg h1, if_neg h1c]
      by_cases h2 : memcmpEq (cstr "#size-cells") p.name 12 = true
      · rw [if_pos h2, ih, if_pos ((hS p.name).mp h2)]
      · have h2c : ¬ cString p.name = some (bytes "#size-cells") :=
          fun h => h2 ((hS p.name).mpr h)
        rw [if_neg h2, ih, if_neg h2c]

theorem lastNamed_skip (s : String) (p : DeviceTreeProperty)
    (props more : List DeviceTreeProperty) (h : cString p.name ≠ some (bytes s)) :
    lastNamed s (props ++ p :: more) = lastNamed s (props ++ more) := by
  unfold lastNamed
  rw [List.filter_append, List.filter_append, List.filter_cons_of_neg (by simpa using h)]

theorem ReservedTable.push_fits (es : List InitialRegion) (n : Nat) (r : InitialRegion)
    (h : n < 32) :
    ReservedTable.push ⟨es, n, []⟩ r = ⟨es ++ [r], n + 1, []⟩ := by
  unfold ReservedTable.push
  rw [if_pos h]

theorem ReservedTable.foldl_push_fits (l es : List InitialRegion) (n : Nat)
    (h : n + l.length ≤ 32) :
    l.foldl ReservedTable.push ⟨es, n, []⟩ = ⟨es ++ l, n + l.length, []⟩ := by
  induction l generalizing es n with
  | nil => simp
  | cons r l ih =>
    simp only [List.length_cons] at h
    rw [List.foldl_cons, ReservedTable.push_fits es n r (by omega), ih (es ++ [r]) (n + 1)
      (by omega)]
    simp only [List.append_assoc, List.singleton_append, List.length_cons,
      ReservedTable.mk.injEq, and_true, true_and]
    omega

theorem reserveRest_fits (b : Boot) (initrd : Nat)
    (h : b.dt.memoryReservations.length + 3 ≤ 32) :
    reserveRest b initrd =
      ⟨b.dt.memoryReservations ++ [⟨b.eirStart, sub64 b.eirEnd b.eirStart⟩,
          ⟨initrd, sub64 (b.cpioAt initrd).eof initrd⟩, ⟨b.deviceTreePtr % 2 ^ 32, b.dt.size⟩],
        b.dt.memoryReservations.length + 3, []⟩ := by
  unfold reserveRest reserveImage
  rw [ReservedTable.foldl_push_fits b.dt.memoryReservations [] 0 (by omega)]
  rw [ReservedTable.push_fits _ _ _ (by omega)]
  rw [ReservedTable.push_fits _ _ _ (by omega)]
  rw [ReservedTable.push_fits _ _ _ (by omega)]
  simp only [List.nil_append, List.append_assoc, List.singleton_append, Nat.zero_add,
    List.cons_append]

theorem regLoop_calls (reg : DeviceTreeProperty) (cells : Nat × Nat) (t : ReservedTable)
    (fuel : Nat) : ∀ j, ∀ c ∈ (regLoop reg cells t fuel j).1,
      c.addressCells = cells.1 ∧ c.sizeCells = cells.2 ∧ c.reserved = t.entries
        ∧ c.count = t.count ∧ c.pastEnd = t.pastEnd := by
  induction fuel with
  | zero =>
    intro j c hc
    simp [regLoop] at hc
  | succ fuel ih =>
    intro j c hc
    unfold regLoop at hc
    split at hc
    · simp only [List.mem_cons] at hc
      rcases hc with h | h
      · subst h
        exact ⟨rfl, rfl, rfl, rfl, rfl⟩
      · exact ih _ c h
    · simp at hc

theorem scanMemory_calls (cells : Nat × Nat) (t : ReservedTable) (fuel : Nat)
    (nodes : List DeviceTreeNode) : ∀ c ∈ (scanMemory cells t fuel nodes).1,
      c.addressCells = cells.1 ∧ c.sizeCells = cells.2 ∧ c.reserved = t.entries
        ∧ c.count = t.count ∧ c.pastEnd = t.pastEnd := by
  induction nodes with
  | nil =>
    intro c hc
    simp [scanMemory] at hc
  | cons node rest ih =>
    intro c hc
    unfold scanMemory at hc
    split at hc
    · simp at hc
    · next reg _ =>
      dsimp only at hc
      split at hc
      · simp only [List.mem_append] at hc
        rcases hc with h | h
        · exact regLoop_calls reg cells t fuel 0 c h
        · exact ih c h
      · exact regLoop_calls reg cells t fuel 0 c hc

theorem eirRaspi4Main_calls (fuel : Nat) (b : Boot) (c : RegionCall)
    (hc : c ∈ (eirRaspi4Main fuel b).calls) :
    ∃ found chosen initrd,
      discoverSubnodes ⟨none, []⟩ b.dt.rootSubnodes = .ok found
      ∧ found.chosenNode = some chosen
      ∧ initrdStart chosen = .ok initrd
      ∧ c.addressCells = (rootCells b.dt.rootProperties).1
      ∧ c.sizeCells = (rootCells b.dt.rootProperties).2
      ∧ c.reserved = (reserveRest b initrd).entries
      ∧ c.count = (reserveRest b initrd).count
      ∧ c.pastEnd = (reserveRest b initrd).pastEnd
      ∧ ∀ m, (eirRaspi4Main fuel b).result = .ok m →
          m = ⟨initrd, sub64 (b.cpioAt initrd).eof initrd⟩ := by
  unfold eirRaspi4Main at hc ⊢
  cases hd : discoverSubnodes ⟨none, []⟩ b.dt.rootSubnodes with
  | ok found =>
    rw [hd] at hc
    obtain ⟨chosenOpt, nodes⟩ := found
    cases chosenOpt with
    | none => simp at hc
    | some chosen =>
      cases nodes with
      | nil => simp at hc
      | cons node rest =>
        cases hi : initrdStart chosen with
        | ok initrd =>
          simp only [hi] at hc ⊢
          refine ⟨⟨some chosen, node :: rest⟩, chosen, initrd, rfl, rfl, hi, ?_⟩
          generalize hscan : scanMemory (rootCells b.dt.rootProperties) (reserveRest b initrd)
            fuel (node :: rest) = scan at hc ⊢
          have hall := scanMemory_calls (rootCells b.dt.rootProperties) (reserveRest b initrd)
            fuel (node :: rest)
          rw [hscan] at hall
          obtain ⟨calls, out⟩ := scan
          cases out with
          | ok u =>
            simp only at hc ⊢
            have hcc : c ∈ calls := by
              split at hc <;> exact hc
            obtain ⟨h1, h2, h3, h4, h5⟩ := hall c hcc
            refine ⟨h1, h2, h3, h4, h5, ?_⟩
            intro m hm
            split at hm
            · injection hm with hm
              exact hm.symm
            · cases hm
          | abort x =>
            simp only at hc ⊢
            obtain ⟨h1, h2, h3, h4, h5⟩ := hall c hc
            exact ⟨h1, h2, h3, h4, h5, fun m hm => by cases hm⟩
          | stall =>
            simp only at hc ⊢
            obtain ⟨h1, h2, h3, h4, h5⟩ := hall c hc
            exact ⟨h1, h2, h3, h4, h5, fun m hm => by cases hm⟩
          | fault =>
            simp only at hc ⊢
            obtain ⟨h1, h2, h3, h4, h5⟩ := hall c hc
            exact ⟨h1, h2, h3, h4, h5, fun m hm => by cases hm⟩
        | abort x => simp [hi] at hc
        | stall => simp [hi] at hc
        | fault => simp [hi] at hc
  | abort x => rw [hd] at hc; simp at hc
  | stall => rw [hd] at hc; simp at hc
  | fault => rw [hd] at hc; simp at hc

theorem ReservedTable.push_inOrder (t : ReservedTable) (r : InitialRegion)
    (h1 : t.entries.length = min t.count 32)
    (h2 : t.pastEnd.map (·.1) = List.range' 32 (t.count - 32)) :
    (t.push r).span = t.span ++ [r]
    ∧ (t.push r).count = t.count + 1
    ∧ (t.push r).entries.length = min (t.count + 1) 32
    ∧ (t.push r).pastEnd.map (·.1) = List.range' 32 (t.count + 1 - 32) := by
  unfold ReservedTable.push
  by_cases h : t.count < 32
  · have h0 : t.count - 32 = 0 := by omega
    rw [h0, List.range'_zero, List.map_eq_nil_iff] at h2
    rw [if_pos h]
    refine ⟨?_, rfl, ?_, ?_⟩
    · simp only [ReservedTable.span, h2, List.map_nil, List.append_nil]
    · simp only [List.length_append, List.length_cons, List.length_nil, h1]
      omega
    · have h3 : t.count + 1 - 32 = 0 := by omega
      simp only [h2, List.map_nil, h3, List.range'_zero]
  · rw [if_neg h]
    refine ⟨?_, rfl, ?_, ?_⟩
    · simp only [ReservedTable.span, List.map_append, List.map_cons, List.map_nil,
        List.append_assoc]
    · simp only [h1]
      omega
    · have h3 : t.count + 1 - 32 = (t.count - 32) + 1 := by omega
      have h4 : 32 + (t.count - 32) = t.count := by omega
      simp only [List.map_append, List.map_cons, List.map_nil, h2, h3, List.range'_1_concat,
        h4]

theorem ReservedTable.foldl_push_inOrder (l : List InitialRegion) : ∀ t : ReservedTable,
    t.entries.length = min t.count 32 →
    t.pastEnd.map (·.1) = List.range' 32 (t.count - 32) →
    (l.foldl ReservedTable.push t).span = t.span ++ l
    ∧ (l.foldl ReservedTable.push t).count = t.count + l.length
    ∧ (l.foldl ReservedTable.push t).entries.length = min (t.count + l.length) 32
    ∧ (l.foldl ReservedTable.push t).pastEnd.map (·.1)
        = List.range' 32 (t.count + l.length - 32) := by
  induction l with
  | nil =>
    intro t h1 h2
    exact ⟨by simp, rfl, h1, h2⟩
  | cons r l ih =>
    intro t h1 h2
    obtain ⟨p1, p2, p3, p4⟩ := ReservedTable.push_inOrder t r h1 h2
    rw [← p2] at p3 p4
    obtain ⟨q1, q2, q3, q4⟩ := ih (t.push r) p3 p4
    rw [List.foldl_cons, q1, q2, q3, q4, p1, p2]
    refine ⟨by simp, ?_, ?_, ?_⟩
    · simp only [List.length_cons]; omega
    · simp only [List.length_cons]
      rw [show t.count + 1 + l.length = t.count + (l.length + 1) by omega]
    · simp only [List.length_cons]
      rw [show t.count + 1 + l.length = t.count + (l.length + 1) by omega]

theorem reserveRest_span (b : Boot) (initrd : Nat) :
    (reserveRest b initrd).span =
      b.dt.memoryReservations ++ [⟨b.eirStart, sub64 b.eirEnd b.eirStart⟩,
        ⟨initrd, sub64 (b.cpioAt initrd).eof initrd⟩, ⟨b.deviceTreePtr % 2 ^ 32, b.dt.size⟩]
    ∧ (reserveRest b initrd).count = b.dt.memoryReservations.length + 3
    ∧ (reserveRest b initrd).entries.length = min (b.dt.memoryReservations.length + 3) 32
    ∧ (reserveRest b initrd).pastEnd.map (·.1)
        = List.range' 32 (b.dt.memoryReservations.length + 3 - 32) := by
  have hfold : reserveRest b initrd = List.foldl ReservedTable.push ⟨[], 0, []⟩
      (b.dt.memoryReservations ++ [⟨b.eirStart, sub64 b.eirEnd b.eirStart⟩,
        ⟨initrd, sub64 (b.cpioAt initrd).eof initrd⟩,
        ⟨b.deviceTreePtr % 2 ^ 32, b.dt.size⟩]) := by
    unfold reserveRest reserveImage
    rw [List.foldl_append]
    rfl
  obtain ⟨a1, a2, a3, a4⟩ := ReservedTable.foldl_push_inOrder
    (b.dt.memoryReservations ++ [⟨b.eirStart, sub64 b.eirEnd b.eirStart⟩,
      ⟨initrd, sub64 (b.cpioAt initrd).eof initrd⟩,
      ⟨b.deviceTreePtr % 2 ^ 32, b.dt.size⟩]) ⟨[], 0, []⟩ rfl rfl
  have hlen : (b.dt.memoryReservations ++ [(⟨b.eirStart, sub64 b.eirEnd b.eirStart⟩ :
      InitialRegion), ⟨initrd, sub64 (b.cpioAt initrd).eof initrd⟩,
      ⟨b.deviceTreePtr % 2 ^ 32, b.dt.size⟩]).length = b.dt.memoryReservations.length + 3 := by
    simp
  rw [hlen, Nat.zero_add] at a2 a3 a4
  rw [hfold]
  refine ⟨?_, a2, a3, a4⟩
  rw [a1]
  simp [ReservedTable.span]

theorem lastNamed_absent (s : String) (props : List DeviceTreeProperty)
    (h : ∀ p ∈ props, cString p.name ≠ some (bytes s)) : lastNamed s props = none := by
  unfold lastNamed
  rw [List.getLast?_eq_none_iff, List.filter_eq_nil_iff]
  intro p hp
  simpa using h p hp

theorem lastNamed_last (s : String) (pre post : List DeviceTreeProperty)
    (p : DeviceTreeProperty) (hp : cString p.name = some (bytes s))
    (h : ∀ q ∈ post, cString q.name ≠ some (bytes s)) :
    lastNamed s (pre ++ p :: post) = some p := by
  have hpost : List.filter (fun p => decide (cString p.name = some (bytes s))) post = [] := by
    rw [List.filter_eq_nil_iff]
    intro q hq
    simpa using h q hq
  unfold lastNamed
  rw [List.filter_append, List.filter_cons_of_pos (by simpa using hp), hpost,
    List.getLast?_append]
  rfl

end deviceTree

/-! ## Strings in memory and the fault status code -/

section stringsAndFaults
open Mbox PropertyMbox

theorem strlenFrom_found (mem : Mem) (n : Nat) : ∀ addr room,
    (∀ i < n, mem (addr + i) % 256 ≠ 0) → mem (addr + n) % 256 = 0 → n < room →
    strlenFrom mem addr room = some n := by
  induction n with
  | zero =>
    intro addr room _ h0 hroom
    cases room with
    | zero => omega
    | succ room =>
      unfold strlenFrom
      rw [if_pos (by simpa using h0)]
  | succ n ih =>
    intro addr room hne h0 hroom
    cases room with
    | zero => omega
    | succ room =>
      unfold strlenFrom
      have h1 : ¬ mem addr % 256 = 0 := by simpa using hne 0 (by omega)
      rw [if_neg h1, ih (addr + 1) room]
      · rfl
      · intro i hi
        have := hne (i + 1) (by omega)
        rwa [show addr + 1 + i = addr + (i + 1) by omega]
      · rwa [show addr + 1 + n = addr + (n + 1) by omega]
      · omega

theorem strlenFrom_some (mem : Mem) : ∀ room addr n, strlenFrom mem addr room = some n →
    n < room ∧ (∀ i < n, mem (addr + i) % 256 ≠ 0) ∧ mem (addr + n) % 256 = 0 := by
  intro room
  induction room with
  | zero =>
    intro addr n h
    simp [strlenFrom] at h
  | succ room ih =>
    intro addr n h
    unfold strlenFrom at h
    split at h
    · next h0 =>
      injection h with h
      subst h
      exact ⟨by omega, fun i hi => by omega, by simpa using h0⟩
    · next h0 =>
      cases hs : strlenFrom mem (addr + 1) room with
      | none => rw [hs] at h; cases h
      | some k =>
        rw [hs] at h
        simp only [Option.map_some', Option.some.injEq] at h
        subst h
        obtain ⟨h1, h2, h3⟩ := ih (addr + 1) k hs
        refine ⟨by omega, ?_, ?_⟩
        · intro i hi
          cases i with
          | zero => simpa using h0
          | succ i =>
            have := h2 i (by omega)
            rwa [show addr + 1 + i = addr + (i + 1) by omega] at this
        · rwa [show addr + 1 + k = addr + (k + 1) by omega] at h3

theorem PropertyMbox.getCmdline_ok (MaxSize val : Nat) (dev : Mbox.Dev) (fw : Firmware)
    (dest : List Nat) (L : Nat) (d : Mbox.Dev)
    (h : (getCmdline MaxSize val dev fw dest).1 = .ok (L, d)) :
    strlen (fw.answer val (getCmdlineRequest MaxSize)) fw.memTop ((val + 20) % 2 ^ 32) = some L
    ∧ load32 (fw.answer val (getCmdlineRequest MaxSize)) (val + 4 * 3) ≤ MaxSize
    ∧ (getCmdline MaxSize val dev fw dest).2 =
        memcpy dest (fw.answer val (getCmdlineRequest MaxSize)) ((val + 20) % 2 ^ 32) (L + 1) := by
  cases hx : exchange val dev with
  | ok r =>
    obtain ⟨ret, d1⟩ := r
    have hret := exchange_returns_address val ret dev d1 hx
    subst hret
    have hg : getCmdline MaxSize ret dev fw dest =
        finishCmdline MaxSize (fw.answer ret (getCmdlineRequest MaxSize)) fw.memTop ret d1
          dest := by
      simp only [getCmdline, hx]
    rw [hg] at h ⊢
    unfold finishCmdline at h ⊢
    dsimp only at h ⊢
    generalize strlen (fw.answer ret (getCmdlineRequest MaxSize)) fw.memTop
      ((ret + 20) % 2 ^ 32) = s at h ⊢
    cases s with
    | none => cases h
    | some n =>
      dsimp only at h ⊢
      by_cases ht : load32 (fw.answer ret (getCmdlineRequest MaxSize)) (ret + 4 * 3) ≤ MaxSize
      · rw [if_pos ht] at h ⊢
        injection h with h
        injection h with h1 h2
        subst h1
        exact ⟨rfl, ht, rfl⟩
      · rw [if_neg ht] at h
        cases h
  | abort c =>
    have hg : getCmdline MaxSize val dev fw dest = (.abort c, dest) := by
      simp only [getCmdline, hx]
    rw [hg] at h
    cases h
  | stall =>
    have hg : getCmdline MaxSize val dev fw dest = (.stall, dest) := by
      simp only [getCmdline, hx]
    rw [hg] at h
    cases h
  | fault =>
    have hg : getCmdline MaxSize val dev fw dest = (.fault, dest) := by
      simp only [getCmdline, hx]
    rw [hg] at h
    cases h

theorem PropertyMbox.getCmdline_full_payload :
    getCmdline 1024 0x1230 (readyDev 0x1238) (fullPayloadFirmware 1024) (List.replicate 1024 0)
      = (.ok (1024, ⟨[], [], [0x1238]⟩),
        memcpy (List.replicate 1024 0)
          ((fullPayloadFirmware 1024).answer 0x1230 (getCmdlineRequest 1024)) 0x1244 1025) := by
  have hx : exchange 0x1230 (readyDev 0x1238) = .ok (0x1230, ⟨[], [], [0x1238]⟩) := by decide
  have hs : strlen ((fullPayloadFirmware 1024).answer 0x1230 (getCmdlineRequest 1024))
      (fullPayloadFirmware 1024).memTop ((0x1230 + 20) % 2 ^ 32) = some 1024 := by
    unfold strlen
    apply strlenFrom_found
    · intro i hi
      simp only [fullPayloadFirmware]
      rw [if_neg (by omega), if_pos (by omega)]
      decide
    · simp only [fullPayloadFirmware]
      rw [if_neg (by omega), if_neg (by omega)]
    · simp only [fullPayloadFirmware]
      omega
  have ht : load32 ((fullPayloadFirmware 1024).answer 0x1230 (getCmdlineRequest 1024))
      (0x1230 + 4 * 3) = 1024 := by decide
  simp only [getCmdline, hx]
  unfold finishCmdline
  dsimp only
  rw [hs]
  dsimp only
  rw [ht, if_pos (by omega)]
  rfl

theorem dfsc_index_zero (iss : Nat) (h : iss &&& 0b111111 ≤ 0b001111) :
    (iss >>> 2) &&& 4 = 0 := by
  have h63 : iss &&& 0b111111 = iss % 64 := Nat.and_pow_two_sub_one_eq_mod iss 6
  rw [h63] at h
  have h7 : (iss >>> 2) &&& 4 = ((iss >>> 2) % 8) &&& 4 := by
    have h8 : (iss >>> 2) &&& 7 = (iss >>> 2) % 8 := Nat.and_pow_two_sub_one_eq_mod _ 3
    have h74 : (7 : Nat) &&& 4 = 4 := by decide
    rw [← h8, Nat.and_assoc, h74]
  rw [h7, Nat.shiftRight_eq_div_pow]
  have hlt : iss / 2 ^ 2 % 8 < 4 := by omega
  have hall : ∀ y < 4, y &&& 4 = 0 := by decide
  exact hall _ hlt

theorem dfscLine_low (iss : Nat) (h : iss &&& 0b111111 ≤ 0b001111) :
    dfscLine iss = [.text "Data fault status code: ", .text "Address size",
      .text " fault level ", .num (iss &&& 3)] := by
  unfold dfscLine
  rw [if_pos h, dfsc_index_zero iss h]
  rfl

end stringsAndFaults

/-! ## Mailbox word encoding -/

section claims
open Mbox PropertyMbox

set_option maxRecDepth 100000

/-- C8: for a channel number `c < 16` and a 32-bit value `v`, `Mbox::write` stores the word
`(v with its low four bits cleared) | c`, which holds `c` in bits 0..3 and `v >> 4` in bits
4..31; `Mbox::read` returns the FIFO word with its low four bits cleared; so for `v` with zero
low four bits, decoding the word written for `(c, v)` gives back `v`. -/
theorem mbox_word_round_trip (c v : Nat) (hc : c < 16) (hv : v < 2 ^ 32) :
    (∀ dev dev1, Mbox.writeRaw c v dev = .ok dev1 →
        dev1.written = dev.written ++ [(v - v % 16) ||| c])
    ∧ ((v - v % 16) ||| c) % 16 = c
    ∧ ((v - v % 16) ||| c) / 16 = v >>> 4
    ∧ (∀ ch dev ret dev1, Mbox.read ch dev = .ok (ret, dev1) →
        ∃ f more, dev.rdFifo = f :: more ∧ ret = Mbox.payload f ∧
          (f < 2 ^ 32 → ret = f - f % 16))
    ∧ (v % 16 = 0 → Mbox.payload ((v - v % 16) ||| c) = v) := by
  have hword : (v - v % 16) ||| c = Mbox.ioWord c v := by
    rw [Mbox.ioWord_eq c v hc hv]
    have h : v - v % 16 = 2 ^ 4 * (v / 16) := by omega
    rw [h]
    exact (Nat.mul_add_lt_is_or (by omega) (v / 16)).symm
  have hio := Mbox.ioWord_eq c v hc hv
  refine ⟨?_, ?_, ?_, ?_, ?_⟩
  · intro dev dev1 h
    unfold Mbox.writeRaw at h
    split at h
    · cases h
    · injection h with h
      rw [← h, hword]
  · rw [hword, hio]; omega
  · rw [hword, hio, Nat.shiftRight_eq_div_pow]; omega
  · intro ch dev ret dev1 h
    unfold Mbox.read at h
    split at h
    · cases h
    · split at h
      · cases h
      · next f more hf =>
        injection h with h
        injection h with h1 h2
        exact ⟨f, more, hf, h1.symm, fun hlt => by rw [← h1, Mbox.payload_eq f hlt]⟩
  · intro h0
    rw [hword, hio, Mbox.payload_eq _ (by omega)]
    omega

/-- C8, at the property channel and the address `0x1230`. -/
theorem mbox_word_round_trip_witness :
    (8 < 16 ∧ 0x1230 < 2 ^ 32) ∧ Mbox.payload ((0x1230 - 0x1230 % 16) ||| 8) = 0x1230 :=
  ⟨by decide, (mbox_word_round_trip 8 0x1230 (by decide) (by decide)).2.2.2.2 (by decide)⟩

/-- C5: evaluation of `Mbox::read` where the claim fails. The only word in the read FIFO is
tagged with channel 1 (`fb`); a read on the property channel (8) returns its payload all the
same, and the result of a read never depends on the channel asked for. -/
theorem read_ignores_channel :
    Mbox.io.channel.get 0x12345671 = Channel.fb.toNat
    ∧ Mbox.read .property ⟨[0], [0x12345671], []⟩ = .ok (0x12345670, ⟨[], [], []⟩)
    ∧ ∀ (c c1 : Channel) (dev : Mbox.Dev), Mbox.read c dev = Mbox.read c1 dev :=
  ⟨by decide, by decide, fun _ _ _ => rfl⟩

/-! ## Property operations -/

/-- C1: in `setClockFreq`, `setupFb` and `getCmdline`, once the buffer address `val` has been
written to the property channel and `Mbox::read` has returned `ret`: if `ret` differs from `val`
the operation aborts on `assert(val == ret)` and produces no result (and `getCmdline` leaves the
destination as it was); if `ret` equals `val` the operation goes on to return, respectively to
read the response. -/
theorem echo_check_guards_response (val ret : Nat) (dev dev1 dev2 : Mbox.Dev) (fw : Firmware)
    (hfit : addressFits val = true)
    (hw : Mbox.write .property (val % 2 ^ 32) dev = .ok dev1)
    (hr : Mbox.read .property dev1 = .ok (ret, dev2)) :
    (ret ≠ val →
      (∀ clock freq turbo, setClockFreq val dev clock freq turbo = .abort .echo)
      ∧ (∀ width height bpp, setupFb val dev fw width height bpp = .abort .echo)
      ∧ (∀ MaxSize dest, getCmdline MaxSize val dev fw dest = (.abort .echo, dest)))
    ∧ (ret = val →
      (∀ clock freq turbo, setClockFreq val dev clock freq turbo = .ok ((), dev2))
      ∧ (∀ width height bpp, setupFb val dev fw width height bpp =
          .ok (readFb (fw.answer val (setupFbRequest width height bpp)) val bpp, dev2))
      ∧ (∀ MaxSize dest, getCmdline MaxSize val dev fw dest =
          finishCmdline MaxSize (fw.answer val (getCmdlineRequest MaxSize)) fw.memTop val dev2
            dest)) := by
  have hx := exchange_of_read val ret dev dev1 dev2 hfit hw hr
  constructor
  · intro hne
    rw [if_neg (fun h => hne h.symm)] at hx
    refine ⟨?_, ?_, ?_⟩
    · intro clock freq turbo
      simp only [setClockFreq, hx, Outcome.bind]
    · intro width height bpp
      simp only [setupFb, hx, Outcome.bind]
    · intro MaxSize dest
      simp only [getCmdline, hx]
  · intro heq
    subst heq
    rw [if_pos rfl] at hx
    refine ⟨?_, ?_, ?_⟩
    · intro clock freq turbo
      simp only [setClockFreq, hx, Outcome.bind]
    · intro width height bpp
      simp only [setupFb, hx, Outcome.bind]
    · intro MaxSize dest
      simp only [getCmdline, hx]

/-- C1, at the address `0x1230` answered by the word for `0x4560`: `setupFb` aborts. -/
theorem echo_check_guards_response_witness :
    setupFb 0x1230 (readyDev 0x4568) (wordsFirmware []) 1920 1080 32 = .abort .echo :=
  ((echo_check_guards_response 0x1230 0x4560 (readyDev 0x4568) ⟨[0], [0x4568], [0x1238]⟩
    ⟨[], [], [0x1238]⟩ (wordsFirmware []) (by decide) (by decide) (by decide)).1
      (by decide)).2.1 1920 1080 32

/-- C2 as stated fails: requested depth 32, reported depth 16; `setupFb` returns a null pointer
but the pitch of the response, 3840, not zero. -/
theorem depth_mismatch_pitch_not_zero :
    load32 ((wordsFirmware depth16Response).answer 0x1230 (setupFbRequest 1920 1080 32))
        (0x1230 + 4 * 20) = 16
    ∧ setupFb 0x1230 (readyDev 0x1238) (wordsFirmware depth16Response) 1920 1080 32
      = .ok (⟨1920, 1080, 0, 3840⟩, ⟨[], [], [0x1238]⟩) := by
  constructor
  · decide
  · decide

/-- C2, amended: when the round trip succeeds and response word 20 differs from `bpp` (as the
32-bit word stored in the request), `setupFb` returns a null framebuffer pointer; width, height
and pitch are response words 5, 6 and 33 whatever they hold, and the caller's test
`!ptr || !pitch` then leaves the framebuffer unused. -/
theorem setupFb_depth_mismatch (val : Nat) (dev dev1 dev2 : Mbox.Dev) (fw : Firmware)
    (width height bpp : Int)
    (hfit : addressFits val = true)
    (hw : Mbox.write .property (val % 2 ^ 32) dev = .ok dev1)
    (hr : Mbox.read .property dev1 = .ok (val, dev2))
    (hdepth : load32 (fw.answer val (setupFbRequest width height bpp)) (val + 4 * 20)
      ≠ toU32 bpp) :
    ∃ r, setupFb val dev fw width height bpp = .ok (r, dev2)
      ∧ r.ptr = 0
      ∧ r.pitch = load32 (fw.answer val (setupFbRequest width height bpp)) (val + 4 * 33)
      ∧ r.width = toInt32 (load32 (fw.answer val (setupFbRequest width height bpp)) (val + 4 * 5))
      ∧ r.height = toInt32 (load32 (fw.answer val (setupFbRequest width height bpp)) (val + 4 * 6))
      ∧ haveFb r = false := by
  have hx := exchange_of_read val val dev dev1 dev2 hfit hw hr
  rw [if_pos rfl] at hx
  refine ⟨readFb (fw.answer val (setupFbRequest width height bpp)) val bpp, ?_, ?_, rfl, rfl, rfl,
    ?_⟩
  · simp only [setupFb, hx, Outcome.bind]
  · simp only [readFb, fbPtr, if_neg hdepth]
    rfl
  · simp only [haveFb, readFb, fbPtr, if_neg hdepth]
    rfl

/-- C2 amended, at depth 32 requested and depth 16 reported. -/
theorem setupFb_depth_mismatch_witness :
    ∃ r, setupFb 0x1230 (readyDev 0x1238) (wordsFirmware depth16Response) 1920 1080 32
        = .ok (r, ⟨[], [], [0x1238]⟩)
      ∧ r.ptr = 0 ∧ r.pitch = 3840 ∧ haveFb r = false := by
  obtain ⟨r, h1, h2, h3, _, _, h6⟩ :=
    setupFb_depth_mismatch 0x1230 (readyDev 0x1238) ⟨[0], [0x1238], [0x1238]⟩ ⟨[], [], [0x1238]⟩
      (wordsFirmware depth16Response) 1920 1080 32 (by decide) (by decide) (by decide)
      (by decide)
  exact ⟨r, h1, h2, h3.trans (by decide), h6⟩

/-- C3: for `MaxSize` a multiple of 4 and a response whose word 3 exceeds `MaxSize`,
`getCmdline<MaxSize>` returns no length and leaves the destination as it was; when the round
trip succeeded and `strlen` found its NUL, the call ends on `assert(totalLen <= MaxSize)`. -/
theorem getCmdline_too_long_aborts (MaxSize val : Nat) (dev : Mbox.Dev) (fw : Firmware)
    (dest : List Nat) (_h4 : MaxSize % 4 = 0)
    (hlen : MaxSize < load32 (fw.answer val (getCmdlineRequest MaxSize)) (val + 4 * 3)) :
    (getCmdline MaxSize val dev fw dest).2 = dest
    ∧ (∀ r, (getCmdline MaxSize val dev fw dest).1 ≠ .ok r)
    ∧ (∀ dev1 dev2 n, addressFits val = true →
        Mbox.write .property (val % 2 ^ 32) dev = .ok dev1 →
        Mbox.read .property dev1 = .ok (val, dev2) →
        strlen (fw.answer val (getCmdlineRequest MaxSize)) fw.memTop ((val + 20) % 2 ^ 32) = some n →
        (getCmdline MaxSize val dev fw dest).1 = .abort .cmdlineFits) := by
  have hfin : ∀ ret d, ret = val →
      (finishCmdline MaxSize (fw.answer val (getCmdlineRequest MaxSize)) fw.memTop ret d dest).2
          = dest
      ∧ (∀ r, (finishCmdline MaxSize (fw.answer val (getCmdlineRequest MaxSize)) fw.memTop ret d
          dest).1 ≠ .ok r)
      ∧ (∀ n, strlen (fw.answer val (getCmdlineRequest MaxSize)) fw.memTop ((val + 20) % 2 ^ 32) = some n →
          (finishCmdline MaxSize (fw.answer val (getCmdlineRequest MaxSize)) fw.memTop ret d
            dest).1 = .abort .cmdlineFits) := by
    intro ret d hret
    subst hret
    rw [PropertyMbox.finishCmdline_too_long MaxSize _ fw.memTop ret d dest hlen]
    generalize strlen (fw.answer ret (getCmdlineRequest MaxSize)) fw.memTop ((ret + 20) % 2 ^ 32) = s
    cases s with
    | none => exact ⟨rfl, fun r h => (by cases h), fun n h => (by cases h)⟩
    | some n => exact ⟨rfl, fun r h => (by cases h), fun _ _ => rfl⟩
  cases hx : exchange val dev with
  | ok r =>
    obtain ⟨ret, d⟩ := r
    have hret := exchange_returns_address val ret dev d hx
    obtain ⟨h1, h2, h3⟩ := hfin ret d hret
    have hg : getCmdline MaxSize val dev fw dest =
        finishCmdline MaxSize (fw.answer val (getCmdlineRequest MaxSize)) fw.memTop ret d dest := by
      simp only [getCmdline, hx]
    rw [hg]
    exact ⟨h1, h2, fun _ _ n _ _ _ hs => h3 n hs⟩
  | abort c =>
    have hg : getCmdline MaxSize val dev fw dest = (.abort c, dest) := by
      simp only [getCmdline, hx]
    rw [hg]
    refine ⟨rfl, fun r h => (by cases h), ?_⟩
    intro dev1 dev2 n hfit hw hr _
    have hx2 := exchange_of_read val val dev dev1 dev2 hfit hw hr
    rw [if_pos rfl, hx] at hx2
    cases hx2
  | stall =>
    have hg : getCmdline MaxSize val dev fw dest = (.stall, dest) := by
      simp only [getCmdline, hx]
    rw [hg]
    refine ⟨rfl, fun r h => (by cases h), ?_⟩
    intro dev1 dev2 n hfit hw hr _
    have hx2 := exchange_of_read val val dev dev1 dev2 hfit hw hr
    rw [if_pos rfl, hx] at hx2
    cases hx2
  | fault =>
    have hg : getCmdline MaxSize val dev fw dest = (.fault, dest) := by
      simp only [getCmdline, hx]
    rw [hg]
    refine ⟨rfl, fun r h => (by cases h), ?_⟩
    intro dev1 dev2 n hfit hw hr _
    have hx2 := exchange_of_read val val dev dev1 dev2 hfit hw hr
    rw [if_pos rfl, hx] at hx2
    cases hx2

/-- C3, at `MaxSize = 1024` and a reported length of 1025: the call ends on the assertion and
the destination keeps its bytes. -/
theorem getCmdline_too_long_aborts_witness :
    (getCmdline 1024 0x1230 (readyDev 0x1238) (wordsFirmware [1044, 0x80000000, 0x00050001, 1025])
        [7, 7, 7]).1 = .abort .cmdlineFits
    ∧ (getCmdline 1024 0x1230 (readyDev 0x1238)
        (wordsFirmware [1044, 0x80000000, 0x00050001, 1025]) [7, 7, 7]).2 = [7, 7, 7] :=
  have h := getCmdline_too_long_aborts 1024 0x1230 (readyDev 0x1238)
    (wordsFirmware [1044, 0x80000000, 0x00050001, 1025]) [7, 7, 7] (by decide) (by decide)
  ⟨h.2.2 ⟨[0], [0x1238], [0x1238]⟩ ⟨[], [], [0x1238]⟩ 0 (by decide) (by decide) (by decide)
    (by decide), h.1⟩

/-- C7: for every width, height and bpp the request of `setupFb` has exactly 36 words, word 0
is 144 (four times 36) and word 1 is 0; read as a property message it consists of the records
`0x00048003` (width, height), `0x00048004` (width, height), `0x00048009` (0, 0), `0x00048005`
(bpp), `0x00048006` (0), `0x00040001` (0x1000, 0) and `0x00040008` (0) in this order, each with
request size 0 and a payload of exactly its value-buffer size, followed by a zero end tag at
word 34; the words read back, 5 and 6, 20, 28 and 33, are payload words of the physical-size,
depth, allocate-buffer and pitch records. -/
theorem setupFb_request_layout (width height bpp : Int) :
    (setupFbRequest width height bpp).length = 36
    ∧ (setupFbRequest width height bpp)[0]? = some 144
    ∧ 144 = 4 * 36
    ∧ parseMessage (setupFbRequest width height bpp) = some
      { size := 144
        code := 0
        records :=
          [⟨0x00048003, 8, 0, [toU32 width, toU32 height], 5⟩,
           ⟨0x00048004, 8, 0, [toU32 width, toU32 height], 10⟩,
           ⟨0x00048009, 8, 0, [0, 0], 15⟩,
           ⟨0x00048005, 4, 0, [toU32 bpp], 20⟩,
           ⟨0x00048006, 4, 0, [0], 24⟩,
           ⟨0x00040001, 8, 0, [0x1000, 0], 28⟩,
           ⟨0x00040008, 4, 0, [0], 33⟩]
        endTagAt := 34 }
    ∧ (∀ r ∈ (parseMessage (setupFbRequest width height bpp)).toList.flatMap (·.records),
        r.code = 0 ∧ 4 * r.payload.length = r.bufSize)
    ∧ (∀ mem ret, readFb mem ret bpp =
        { width := toInt32 (load32 mem (ret + 4 * 5))
          height := toInt32 (load32 mem (ret + 4 * (5 + 1)))
          ptr := intToPtr (if load32 mem (ret + 4 * 20) = toU32 bpp then
            toInt32 ((load32 mem (ret + 4 * 28) + 4294967296 - 0xC0000000) % 4294967296) else 0)
          pitch := load32 mem (ret + 4 * 33) }) := by
  have hparse : parseMessage (setupFbRequest width height bpp) = some
      { size := 144
        code := 0
        records :=
          [⟨0x00048003, 8, 0, [toU32 width, toU32 height], 5⟩,
           ⟨0x00048004, 8, 0, [toU32 width, toU32 height], 10⟩,
           ⟨0x00048009, 8, 0, [0, 0], 15⟩,
           ⟨0x00048005, 4, 0, [toU32 bpp], 20⟩,
           ⟨0x00048006, 4, 0, [0], 24⟩,
           ⟨0x00040001, 8, 0, [0x1000, 0], 28⟩,
           ⟨0x00040008, 4, 0, [0], 33⟩]
        endTagAt := 34 } := by
    simp [parseMessage, setupFbRequest, parseTags]
  refine ⟨rfl, rfl, rfl, hparse, ?_, fun _ _ => rfl⟩
  rw [hparse]
  intro r hr
  simp only [Option.toList, List.flatMap_cons, List.flatMap_nil, List.append_nil, List.mem_cons,
    List.mem_singleton, List.not_mem_nil, or_false] at hr
  rcases hr with h | h | h | h | h | h | h <;> subst h <;> exact ⟨rfl, rfl⟩

/-- C6: evaluation of the request of `getCmdline<1024>` where the claim fails. The buffer has
`req_size = 1044` bytes, word 0 is 1044 and word 1 is 0, the tag record is `0x00050001` with a
value buffer of 1024 bytes and request size 0, and that value buffer takes words 5 to 260, the
last words of the buffer: the end tag would be word 261, at byte offset 1044, so it is not
within the first `req_size` bytes and the buffer does not read as a property message. For every
`MaxSize` that is a multiple of 4 the word after the value buffer lies past the buffer. -/
theorem getCmdline_request_has_no_end_tag :
    cmdlineReqSize 1024 = 1044
    ∧ 4 * (getCmdlineRequest 1024).length = 1044
    ∧ (getCmdlineRequest 1024).take 5 = [1044, 0, 0x00050001, 1024, 0]
    ∧ (getCmdlineRequest 1024).drop 5 = List.replicate (1024 / 4) 0
    ∧ (getCmdlineRequest 1024)[5 + 1024 / 4]? = none
    ∧ parseMessage (getCmdlineRequest 1024) = none
    ∧ parseMessage (getCmdlineRequest 1024 ++ [0]) = none
    ∧ parseTags (getCmdlineRequest 1024 ++ [0]) 2 2 = some
        ([⟨0x00050001, 1024, 0, List.replicate 256 0, 5⟩], 261)
    ∧ (∀ MaxSize, MaxSize % 4 = 0 → MaxSize + 20 < 2 ^ 32 →
        (getCmdlineRequest MaxSize).length = 5 + MaxSize / 4
        ∧ 4 * (getCmdlineRequest MaxSize).length = cmdlineReqSize MaxSize
        ∧ (getCmdlineRequest MaxSize)[5 + MaxSize / 4]? = none) := by
  refine ⟨by decide, by decide, by decide, by decide, by decide, ?_, ?_, ?_, ?_⟩
  · decide
  · decide
  · decide
  · intro MaxSize h4 hlt
    have hlen : (getCmdlineRequest MaxSize).length = 5 + MaxSize / 4 := by
      simp only [getCmdlineRequest, cmdlineReqSize, List.length_set, List.length_replicate]
      omega
    refine ⟨hlen, ?_, ?_⟩
    · rw [hlen]
      unfold cmdlineReqSize
      omega
    · rw [List.getElem?_eq_none_iff, hlen]

/-! ## The entry point -/

/-- C4: evaluation of `eirRaspi4Main` where the claim fails. With 30 memory reservations in the
blob the loader collects 33 reservations; no assertion fires, the run goes on to the boot
module, and the range of the blob has been stored at index 32, past the end of the 32-entry
table. -/
theorem reservations_stored_past_end :
    (bootWith 30).dt.memoryReservations.length + 3 = 33
    ∧ (eirRaspi4Main 4 (bootWith 30)).table.pastEnd = [(32, ⟨0x2000000, 0x8000⟩)]
    ∧ (eirRaspi4Main 4 (bootWith 30)).table.entries.length = 32
    ∧ (eirRaspi4Main 4 (bootWith 30)).table.count = 33
    ∧ (eirRaspi4Main 4 (bootWith 30)).calls.length = 1
    ∧ (eirRaspi4Main 4 (bootWith 30)).result = .ok ⟨0x8000000, 0x5000⟩ := by
  refine ⟨by decide, by decide, by decide, by decide, by decide, by decide⟩

/-- C9: every call of `createInitialRegions` is given the same span
`{reservedRegions, nReservedRegions}`, whose elements in slot order are the memory reservations
of the blob in blob order, then the loader image `{eirStart, eirEnd - eirStart}`, the ramdisk
`{initrd, eof - initrd}` and the blob `{deviceTreePtr, dt.size()}`; its length is the number of
memory reservations plus 3. Here `initrd` is the value chosen from the chosen node, and a boot
module that gets recorded holds the base and length of the ramdisk range. The first 32 slots
lie inside the array and the later ones directly behind it. -/
theorem reservations_passed (fuel : Nat) (b : Boot)
    (c : RegionCall) (hc : c ∈ (eirRaspi4Main fuel b).calls) :
    ∃ found chosen initrd,
      discoverSubnodes ⟨none, []⟩ b.dt.rootSubnodes = .ok found
      ∧ found.chosenNode = some chosen
      ∧ initrdStart chosen = .ok initrd
      ∧ c.span = b.dt.memoryReservations ++
          [⟨b.eirStart, sub64 b.eirEnd b.eirStart⟩,
            ⟨initrd, sub64 (b.cpioAt initrd).eof initrd⟩,
            ⟨b.deviceTreePtr % 2 ^ 32, b.dt.size⟩]
      ∧ c.count = b.dt.memoryReservations.length + 3
      ∧ c.span.length = b.dt.memoryReservations.length + 3
      ∧ c.reserved.length = min (b.dt.memoryReservations.length + 3) 32
      ∧ c.pastEnd.map (·.1) = List.range' 32 (b.dt.memoryReservations.length + 3 - 32)
      ∧ ∀ m, (eirRaspi4Main fuel b).result = .ok m →
          m.physicalBase = initrd ∧ m.length = sub64 (b.cpioAt initrd).eof initrd := by
  obtain ⟨found, chosen, initrd, h1, h2, h3, _, _, h6, h7, h8, h9⟩ :=
    eirRaspi4Main_calls fuel b c hc
  obtain ⟨s1, s2, s3, s4⟩ := reserveRest_span b initrd
  have hspan : c.span = (reserveRest b initrd).span := by
    unfold RegionCall.span ReservedTable.span
    rw [h6, h8]
  refine ⟨found, chosen, initrd, h1, h2, h3, ?_, ?_, ?_, ?_, ?_, ?_⟩
  · rw [hspan, s1]
  · rw [h7, s2]
  · rw [hspan, s1]
    simp
  · rw [h6, s3]
  · rw [h8, s4]
  · intro m hm
    rw [h9 m hm]
    exact ⟨rfl, rfl⟩

/-- C9, at a blob with 30 memory reservations, where the span has 33 elements. -/
theorem reservations_passed_witness :
    ∃ found chosen initrd,
      discoverSubnodes ⟨none, []⟩ (bootWith 30).dt.rootSubnodes = .ok found
      ∧ found.chosenNode = some chosen
      ∧ initrdStart chosen = .ok initrd
      ∧ (⟨2, 1, ⟨0, 0x40000000⟩,
          ((List.range 30).map fun i => ⟨0x10000000 + 0x1000 * i, 0x1000⟩)
            ++ [⟨0x80000, 0x80000⟩, ⟨0x8000000, 0x5000⟩],
          33, [(32, ⟨0x2000000, 0x8000⟩)]⟩ : RegionCall).span
          = (bootWith 30).dt.memoryReservations ++
          [⟨(bootWith 30).eirStart, sub64 (bootWith 30).eirEnd (bootWith 30).eirStart⟩,
            ⟨initrd, sub64 ((bootWith 30).cpioAt initrd).eof initrd⟩,
            ⟨(bootWith 30).deviceTreePtr % 2 ^ 32, (bootWith 30).dt.size⟩] := by
  obtain ⟨found, chosen, initrd, h1, h2, h3, h4, _⟩ :=
    reservations_passed 4 (bootWith 30)
      ⟨2, 1, ⟨0, 0x40000000⟩,
        ((List.range 30).map fun i => ⟨0x10000000 + 0x1000 * i, 0x1000⟩)
          ++ [⟨0x80000, 0x80000⟩, ⟨0x8000000, 0x5000⟩],
        33, [(32, ⟨0x2000000, 0x8000⟩)]⟩ (by decide)
  exact ⟨found, chosen, initrd, h1, h2, h3, h4⟩

/-- C10: every decoding of a `reg` property uses the widths left by the loop over the root
properties. These are 2 and 1 when no root property is named exactly `#address-cells`,
respectively `#size-cells`; when there is one, the width is the 32-bit value of the last
property of that name; a property of any other name changes neither width, and names that only
begin with these strings are other names. -/
theorem root_cell_widths :
    (∀ fuel b, ∀ c ∈ (eirRaspi4Main fuel b).calls,
      c.addressCells = (rootCells b.dt.rootProperties).1
      ∧ c.sizeCells = (rootCells b.dt.rootProperties).2)
    ∧ (∀ props : List DeviceTreeProperty,
        (∀ p ∈ props, cString p.name ≠ some (bytes "#address-cells")) →
        (rootCells props).1 = 2)
    ∧ (∀ props : List DeviceTreeProperty,
        (∀ p ∈ props, cString p.name ≠ some (bytes "#size-cells")) →
        (rootCells props).2 = 1)
    ∧ (∀ (pre post : List DeviceTreeProperty) (p : DeviceTreeProperty),
        cString p.name = some (bytes "#address-cells") →
        (∀ q ∈ post, cString q.name ≠ some (bytes "#address-cells")) →
        (rootCells (pre ++ p :: post)).1 = p.asU32 % 2 ^ 32)
    ∧ (∀ (pre post : List DeviceTreeProperty) (p : DeviceTreeProperty),
        cString p.name = some (bytes "#size-cells") →
        (∀ q ∈ post, cString q.name ≠ some (bytes "#size-cells")) →
        (rootCells (pre ++ p :: post)).2 = p.asU32 % 2 ^ 32)
    ∧ (∀ (pre post : List DeviceTreeProperty) (p : DeviceTreeProperty),
        cString p.name ≠ some (bytes "#address-cells") →
        cString p.name ≠ some (bytes "#size-cells") →
        rootCells (pre ++ p :: post) = rootCells (pre ++ post))
    ∧ rootCells [cellProp "#address-cells-extra" 7, cellProp "#size-cells2" 9,
        cellProp "#address" 5] = (2, 1)
    ∧ rootCells [cellProp "#address-cells" 1, cellProp "#size-cells" 2,
        cellProp "#address-cells" 3] = (3, 2) := by
  refine ⟨?_, ?_, ?_, ?_, ?_, ?_, by decide, by decide⟩
  · intro fuel b c hc
    obtain ⟨_, _, _, _, _, _, h4, h5, _⟩ := eirRaspi4Main_calls fuel b c hc
    exact ⟨h4, h5⟩
  · intro props h
    unfold rootCells
    rw [rootCellsFrom_eq, lastNamed_absent _ props h]
    rfl
  · intro props h
    unfold rootCells
    rw [rootCellsFrom_eq, lastNamed_absent _ props h]
    rfl
  · intro pre post p hp h
    unfold rootCells
    rw [rootCellsFrom_eq, lastNamed_last _ pre post p hp h]
    rfl
  · intro pre post p hp h
    unfold rootCells
    rw [rootCellsFrom_eq, lastNamed_last _ pre post p hp h]
    rfl
  · intro pre post p h1 h2
    unfold rootCells
    rw [rootCellsFrom_eq, rootCellsFrom_eq, lastNamed_skip _ p pre post h1,
      lastNamed_skip _ p pre post h2]

/-! ## The fault handler and the command line -/

/-- C11: evaluation of `eirExceptionHandler` where the claim fails. The syndrome `0x94000005`
is a data abort (class `0x25`) with status code `0b000101`, whose bits 3..2 select
`Translation` in the table; the handler logs `Address size fault level 1` and no line with
`Translation`, and likewise for the status codes of an access flag and a permission fault. For
every data abort with a status code of at most `0b001111` the category logged is
`Address size`, with the level of bits 1..0. -/
theorem dfsc_reports_address_size_only :
    0x94000005 >>> 26 = 0x25
    ∧ issOf 0x94000005 &&& 0b111111 = 0b000101
    ∧ dfsc_values[(0b000101 >>> 2) &&& 3]? = some "Translation"
    ∧ [.text "Data fault status code: ", .text "Address size", .text " fault level ", .num 1]
        ∈ eirExceptionHandler 0 0x94000005 0x80000 0 0x1000
    ∧ [.text "Data fault status code: ", .text "Translation", .text " fault level ", .num 1]
        ∉ eirExceptionHandler 0 0x94000005 0x80000 0 0x1000
    ∧ [.text "Data fault status code: ", .text "Address size", .text " fault level ", .num 2]
        ∈ eirExceptionHandler 0 0x9400000A 0x80000 0 0x1000
    ∧ [.text "Data fault status code: ", .text "Access flag", .text " fault level ", .num 2]
        ∉ eirExceptionHandler 0 0x9400000A 0x80000 0 0x1000
    ∧ [.text "Data fault status code: ", .text "Address size", .text " fault level ", .num 3]
        ∈ eirExceptionHandler 0 0x9000000F 0x80000 0 0x1000
    ∧ [.text "Data fault status code: ", .text "Permission", .text " fault level ", .num 3]
        ∉ eirExceptionHandler 0 0x9000000F 0x80000 0 0x1000
    ∧ (∀ i_type syndrome link state fault_addr,
        syndrome >>> 26 = 0x24 ∨ syndrome >>> 26 = 0x25 →
        issOf syndrome &&& 0b111111 ≤ 0b001111 →
        dfscLine (issOf syndrome) ∈ eirExceptionHandler i_type syndrome link state fault_addr
        ∧ dfscLine (issOf syndrome) = [.text "Data fault status code: ", .text "Address size",
            .text " fault level ", .num (issOf syndrome &&& 3)]) := by
  refine ⟨by decide, by decide, by decide, by decide, by decide, by decide, by decide, by decide,
    by decide, ?_⟩
  intro i_type syndrome link state fault_addr hclass hlow
  refine ⟨?_, dfscLine_low _ hlow⟩
  unfold eirExceptionHandler
  rw [if_pos hclass.symm]
  simp [dataAbortLines]

/-- C12: evaluation of `getCmdline<1024>` where the claim fails. The firmware reports a length
of 1024 and fills the 1024 payload bytes with a command line of 1024 characters: the echo check
and `assert(totalLen <= MaxSize)` pass, the first NUL after byte offset 20 is the first byte
behind the request buffer, the call returns `L = 1024`, and the `L + 1 = 1025` bytes copied do
not fit the 1024-byte destination. Whenever the call returns `L`, that `L` is the number of
bytes before the first NUL from byte offset 20 on and the reported length is at most `MaxSize`;
nothing ties `L` to `MaxSize`. -/
theorem getCmdline_copy_exceeds_dest :
    load32 ((fullPayloadFirmware 1024).answer 0x1230 (getCmdlineRequest 1024)) (0x1230 + 4 * 3)
      = 1024
    ∧ (getCmdline 1024 0x1230 (readyDev 0x1238) (fullPayloadFirmware 1024)
        (List.replicate 1024 0)).1 = .ok (1024, ⟨[], [], [0x1238]⟩)
    ∧ ¬ (1024 + 1 ≤ 1024)
    ∧ (List.replicate 1024 0).length = 1024
    ∧ (getCmdline 1024 0x1230 (readyDev 0x1238) (fullPayloadFirmware 1024)
        (List.replicate 1024 0)).2.length = 1025
    ∧ 0x1230 + 20 + 1024 = 0x1230 + cmdlineReqSize 1024
    ∧ (∀ i < 1024, (fullPayloadFirmware 1024).answer 0x1230 (getCmdlineRequest 1024)
        (0x1230 + 20 + i) % 256 ≠ 0)
    ∧ (fullPayloadFirmware 1024).answer 0x1230 (getCmdlineRequest 1024) (0x1230 + 20 + 1024) % 256
      = 0
    ∧ (∀ MaxSize val dev fw dest L d, (getCmdline MaxSize val dev fw dest).1 = .ok (L, d) →
        (∀ i < L, fw.answer val (getCmdlineRequest MaxSize) ((val + 20) % 2 ^ 32 + i) % 256 ≠ 0)
        ∧ fw.answer val (getCmdlineRequest MaxSize) ((val + 20) % 2 ^ 32 + L) % 256 = 0
        ∧ load32 (fw.answer val (getCmdlineRequest MaxSize)) (val + 4 * 3) ≤ MaxSize
        ∧ (getCmdline MaxSize val dev fw dest).2 =
            memcpy dest (fw.answer val (getCmdlineRequest MaxSize)) ((val + 20) % 2 ^ 32)
              (L + 1)) := by
  refine ⟨by decide, ?_, by decide, by simp, ?_, by decide, ?_, ?_, ?_⟩
  · rw [PropertyMbox.getCmdline_full_payload]
  · rw [PropertyMbox.getCmdline_full_payload]
    simp [memcpy]
  · intro i hi
    simp only [fullPayloadFirmware]
    rw [if_neg (by omega), if_pos (by omega)]
    decide
  · simp only [fullPayloadFirmware]
    rw [if_neg (by omega), if_neg (by omega)]
  · intro MaxSize val dev fw dest L d h
    obtain ⟨hs, ht, hd⟩ := PropertyMbox.getCmdline_ok MaxSize val dev fw dest L d h
    obtain ⟨_, h2, h3⟩ := strlenFrom_some _ _ _ _ hs
    exact ⟨h2, h3, ht, hd⟩

end claims

end eir
